import Mathlib

/-!
Verification development for the tender-document analysis core: a shallow
embedding of the Document Structurer (docx structural parser) and of the
hybrid Extraction & Synthesis Engine, together with theorems about the
properties stated in the specification.

Conventions of the embedding:
* JavaScript strings are modelled as Lean strings; character-level regex
  operations are implemented as explicit scanning functions over lists of
  characters.  The regular expressions that occur in the source use only
  disjoint character classes around each quantifier (so greedy matching is
  deterministic); the few places where classes overlap (a capture class
  containing whitespace after a whitespace gap) implement the engine's
  backtracking explicitly.
* The regex class backslash-s is modelled by a fixed set of common
  whitespace code points, and toLowerCase by ASCII lowercasing.
* The DOM stage (mammoth conversion plus DOMParser) is external: the
  structurer is embedded as a function of the list of top-level body nodes,
  each carrying its tag name, trimmed-relevant text content, serialized
  outer markup, and whether it has a bold descendant.
* Network calls (the semantic oracle) are external: the oracle response is
  a parameter of the pipeline, and the cooperative cancellation signal is
  modelled by the sequence of values it is observed to have at the six
  points where the pipeline checks it.
-/

namespace Soc

/-! ## Character and string utilities -/

/-- Whitespace test modelling the regex class backslash-s (common code points). -/
def jsWs (c : Char) : Bool :=
  c = ' ' || c = '\t' || c = '\n' || c = '\r' || c.toNat = 0xb || c.toNat = 0xc ||
  c.toNat = 0xa0 || c.toNat = 0x3000 || c.toNat = 0xfeff

/-- ASCII lowercasing of one character (model of toLowerCase). -/
def asciiLower (c : Char) : Char :=
  if 'A' ≤ c ∧ c ≤ 'Z' then Char.ofNat (c.toNat + 32) else c

/-- Lowercase a whole string. -/
def lowerStr (s : String) : String := String.mk (s.toList.map asciiLower)

/-- JavaScript-style trim: remove leading and trailing whitespace. -/
def trimChars (cs : List Char) : List Char :=
  ((cs.dropWhile jsWs).reverse.dropWhile jsWs).reverse

/-- JavaScript-style trim on strings. -/
def trimStr (s : String) : String := String.mk (trimChars s.toList)

/-- Remove every whitespace character (replace backslash-s+ by the empty string, globally). -/
def removeWs (s : String) : String := String.mk (s.toList.filter (fun c => !jsWs c))

/-- Collapse whitespace runs to single spaces, with a step budget. -/
def collapseWsGo : Nat → List Char → List Char
  | 0, _ => []
  | _, [] => []
  | fuel + 1, c :: rest =>
    if jsWs c then ' ' :: collapseWsGo fuel (rest.dropWhile jsWs)
    else c :: collapseWsGo fuel rest

/-- Collapse every whitespace run to a single space (replace backslash-s+ by one space). -/
def collapseWsChars (cs : List Char) : List Char := collapseWsGo (cs.length + 1) cs

/-- Does the character list contain the pattern as a contiguous substring? -/
def listContainsSub (cs pat : List Char) : Bool :=
  pat.isPrefixOf cs ||
    match cs with
    | [] => false
    | _ :: t => listContainsSub t pat

/-- String containment (the includes method of JavaScript strings). -/
def strIncludes (s pat : String) : Bool := listContainsSub s.toList pat.toList

/-- Index of the first occurrence of a pattern (the indexOf method), if any. -/
def listIndexOfSub (cs pat : List Char) : Option Nat :=
  if pat.isPrefixOf cs then some 0
  else
    match cs with
    | [] => none
    | _ :: t => (listIndexOfSub t pat).map (· + 1)

/-- Tag deletion with a step budget. -/
def stripTagsGo (repl : List Char) : Nat → List Char → List Char
  | 0, _ => []
  | _, [] => []
  | fuel + 1, c :: rest =>
    if c = '<' ∧ rest.contains '>' then
      repl ++ stripTagsGo repl fuel ((rest.dropWhile (· ≠ '>')).drop 1)
    else c :: stripTagsGo repl fuel rest

/-- Remove markup tags: globally replace a tag-shaped span (an opening angle
bracket, non-closing-bracket characters, a closing angle bracket) by the
given replacement list. -/
def stripTagsWith (repl : List Char) (cs : List Char) : List Char :=
  stripTagsGo repl (cs.length + 1) cs

/-- Strip markup tags, deleting them. -/
def stripTags (s : String) : String := String.mk (stripTagsWith [] s.toList)

/-- Strip markup tags, replacing each by one space. -/
def stripTagsToSpace (s : String) : String := String.mk (stripTagsWith [' '] s.toList)

/-- Digits of a decimal string to a natural number (parseInt on a digit run). -/
def digitsToNat (cs : List Char) : Nat :=
  cs.foldl (fun acc c => 10 * acc + (c.toNat - '0'.toNat)) 0

end Soc

namespace Soc

/-! ## Document structurer: node model and regex testers -/

/-- A top-level body node of the converted document: tag name, text content,
serialized outer markup, and whether it contains a bold descendant. -/
structure DomNode where
  tag : String
  text : String
  html : String
  bold : Bool
deriving DecidableEq, Repr

/-- A chapter of the structured document. -/
structure Chapter where
  id : String
  title : String
  content : String
deriving DecidableEq, Repr

/-- The structured document. -/
structure ParsedDocument where
  name : String
  chapters : List Chapter
  rawHtml : String
deriving DecidableEq, Repr

/-- The numbering character class of the chapter-heading patterns:
Chinese numerals (including hundred) and ASCII digits. -/
def isCnNum (c : Char) : Bool :=
  c = '一' || c = '二' || c = '三' || c = '四' || c = '五' || c = '六' ||
  c = '七' || c = '八' || c = '九' || c = '十' || c = '百' || c.isDigit

/-- Anchored test for a heading of a given unit: the character 第, optional
whitespace, one or more numbering characters, optional whitespace, then the
unit word as a literal. -/
def chapterTest (unit : String) (s : String) : Bool :=
  match s.toList with
  | [] => false
  | c :: rest =>
    if c = '第' then
      let r1 := rest.dropWhile jsWs
      let num := r1.takeWhile isCnNum
      num.length ≥ 1 && unit.toList.isPrefixOf ((r1.drop num.length).dropWhile jsWs)
    else false

/-- Excluded sub-level headings: unit 卷, 节, 条 or 款. -/
def excludeTypeTest (s : String) : Bool :=
  chapterTest "卷" s || chapterTest "节" s || chapterTest "条" s || chapterTest "款" s

/-- The broad heading test used for table-of-contents detection:
unit 章, 部分 or 篇. -/
def tocChapterTest (s : String) : Bool :=
  chapterTest "章" s || chapterTest "部分" s || chapterTest "篇" s

/-- One alternative of the toc-noise pattern at a fixed position: three or
more leader characters, optional whitespace, then a digit. -/
def leaderDotsAt (dot : Char) (cs : List Char) : Bool :=
  let run := cs.takeWhile (· = dot)
  run.length ≥ 3 &&
    (match ((cs.drop run.length).dropWhile jsWs).head? with
     | some d => d.isDigit
     | none => false)

/-- Dash-wrapped page number at a fixed position: a dash, optional
whitespace, one or more digits, optional whitespace, a dash. -/
def dashPageAt (cs : List Char) : Bool :=
  match cs with
  | '-' :: r =>
    let r1 := r.dropWhile jsWs
    let d := r1.takeWhile Char.isDigit
    d.length ≥ 1 && (((r1.drop d.length).dropWhile jsWs).head? = some '-')
  | _ => false

/-- Trailing bare page number reaching the end of the string: one or more
whitespace characters, one or more digits, optional trailing whitespace. -/
def trailingNumAt (cs : List Char) : Bool :=
  let w := cs.takeWhile jsWs
  let r1 := cs.drop w.length
  let d := r1.takeWhile Char.isDigit
  w.length ≥ 1 && d.length ≥ 1 && (r1.drop d.length).all jsWs

/-- Search for the toc-noise pattern anywhere in the string: leader dots or
middle dots with a page number, a dash-wrapped page number, or a trailing
bare number. -/
def tocNoiseTestChars : List Char → Bool
  | [] => false
  | c :: rest =>
    leaderDotsAt '.' (c :: rest) || leaderDotsAt '·' (c :: rest) ||
    dashPageAt (c :: rest) || trailingNumAt (c :: rest) ||
    tocNoiseTestChars rest

/-- Toc-noise search on strings. -/
def tocNoiseTest (s : String) : Bool := tocNoiseTestChars s.toList

/-- A trailing page-number suffix match that must reach the end of the
string: one or more whitespace characters, one to three digits, optional
trailing whitespace. -/
def pageTailMatch (cs : List Char) : Bool :=
  let w := cs.takeWhile jsWs
  let r1 := cs.drop w.length
  let d := r1.takeWhile Char.isDigit
  w.length ≥ 1 && d.length ≥ 1 && d.length ≤ 3 && (r1.drop d.length).all jsWs

/-- Delete a trailing page-number suffix (leftmost match of the suffix
pattern, replaced by the empty string). -/
def stripTrailingPageNo : List Char → List Char
  | [] => []
  | c :: rest =>
    if pageTailMatch (c :: rest) then []
    else c :: stripTrailingPageNo rest

/-- Title normalization used for heading deduplication: delete a trailing
page number, delete all whitespace, lowercase. -/
def normalizeTitle (title : String) : String :=
  lowerStr (removeWs (String.mk (stripTrailingPageNo title.toList)))

/-- Characters the regex dot does not match. -/
def nonNewline (c : Char) : Bool :=
  !(c = '\n' || c = '\r' || c.toNat = 0x2028 || c.toNat = 0x2029)

/-- One or more arbitrary non-newline characters followed by a trailing
page number reaching the end of the string. -/
def dotPlusThenPage : List Char → Bool
  | [] => false
  | c :: rest => nonNewline c && (pageTailMatch rest || dotPlusThenPage rest)

/-- Anchored toc page-number heading test: a heading of unit 章, 节, 篇 or
部, then at least one further character, then a trailing one-to-three digit
page number at the end of the string. -/
def tocPageNumberTest (s : String) : Bool :=
  match s.toList with
  | [] => false
  | c :: rest =>
    if c = '第' then
      let r1 := rest.dropWhile jsWs
      let num := r1.takeWhile isCnNum
      let r2 := (r1.drop num.length).dropWhile jsWs
      num.length ≥ 1 &&
        (match r2 with
         | u :: r3 =>
           (u = '章' || u = '节' || u = '篇' || u = '部') && dotPlusThenPage r3
         | [] => false)
    else false

/-- Extract the chapter-number text of a heading, searching anywhere in the
string: the character 第, optional whitespace, the captured numbering run,
optional whitespace, then 章, 部 or 篇. -/
def extractChapterNumAt (cs : List Char) : Option String :=
  match cs with
  | '第' :: r =>
    let r1 := r.dropWhile jsWs
    let num := r1.takeWhile isCnNum
    if num.length ≥ 1 then
      match ((r1.drop num.length).dropWhile jsWs).head? with
      | some u => if u = '章' || u = '部' || u = '篇' then some (String.mk num) else none
      | none => none
    else none
  | _ => none

/-- Leftmost chapter-number capture in a string. -/
def extractChapterNumChars : List Char → Option String
  | [] => none
  | c :: rest =>
    match extractChapterNumAt (c :: rest) with
    | some v => some v
    | none => extractChapterNumChars rest

/-- Chapter-number text of a title (reference extraction for toc runs). -/
def extractChapterNum (s : String) : Option String := extractChapterNumChars s.toList

/-- Clean a toc entry: delete a trailing leader-dots-plus-page-number span
(leftmost match reaching the end), then a trailing page number, then trim. -/
def leaderTailMatch (cs : List Char) : Bool :=
  let d := cs.takeWhile (fun c => c = '.' || c = '·' || c = '…')
  let r1 := (cs.drop d.length).dropWhile jsWs
  let g := r1.takeWhile Char.isDigit
  d.length ≥ 1 && (r1.drop g.length).all jsWs

/-- Delete the trailing leader span (leftmost match of the leader tail). -/
def stripLeaderTail : List Char → List Char
  | [] => []
  | c :: rest =>
    if leaderTailMatch (c :: rest) then []
    else c :: stripLeaderTail rest

/-- Page-number cleaning of one toc entry. -/
def cleanTocTitle (s : String) : String :=
  trimStr (String.mk (stripTrailingPageNo (stripLeaderTail s.toList)))

/-! ## Document structurer: table-of-contents region detection -/

/-- Inner walk of the toc-region scan: starting after a found heading,
extend the run of near-consecutive headings.  Short lines and excluded
sub-level headings are skipped without breaking the run; a heading whose
chapter number was already seen ends the run (the body has started); any
other substantial line ends the run.  Returns the collected run items
(index and text) and the index at which the walk stopped. -/
def tocRunScan (nodes : List DomNode) (j : Nat) (seen : List String)
    (items : List (Nat × String)) (fuel : Nat) : List (Nat × String) × Nat :=
  match fuel with
  | 0 => (items, j)
  | fuel + 1 =>
    match nodes.get? j with
    | none => (items, j)
    | some nd =>
      let t := trimStr nd.text
      if t.length < 5 then tocRunScan nodes (j + 1) seen items fuel
      else if excludeTypeTest t then tocRunScan nodes (j + 1) seen items fuel
      else if tocChapterTest t then
        match extractChapterNum t with
        | some n =>
          if seen.contains n then (items, j)
          else tocRunScan nodes (j + 1) (n :: seen) (items ++ [(j, t)]) fuel
        | none => tocRunScan nodes (j + 1) seen (items ++ [(j, t)]) fuel
      else (items, j)

/-- Fold the cleaned titles of a run into the reference list, skipping empty
titles and duplicates. -/
def addRunTitles (titles : List String) (items : List (Nat × String)) : List String :=
  items.foldl
    (fun acc it =>
      let ct := cleanTocTitle it.2
      if ct ≠ "" ∧ ¬ acc.contains ct then acc ++ [ct] else acc)
    titles

/-- Outer walk of the toc-region scan over all node indices.  A run of three
or more collected headings marks its indices as toc region and records the
cleaned titles; the walk then resumes at the index where the run stopped. -/
def tocScanOuter (nodes : List DomNode) (i : Nat) (indices : List Nat)
    (titles : List String) (fuel : Nat) : List Nat × List String :=
  match fuel with
  | 0 => (indices, titles)
  | fuel + 1 =>
    match nodes.get? i with
    | none => (indices, titles)
    | some nd =>
      let t := trimStr nd.text
      if excludeTypeTest t then tocScanOuter nodes (i + 1) indices titles fuel
      else if ¬ tocChapterTest t then tocScanOuter nodes (i + 1) indices titles fuel
      else
        let seen0 := match extractChapterNum t with
          | some n => [n]
          | none => []
        let r := tocRunScan nodes (i + 1) seen0 [(i, t)] (nodes.length + 1)
        if r.1.length ≥ 3 then
          tocScanOuter nodes r.2 (indices ++ r.1.map Prod.fst) (addRunTitles titles r.1) fuel
        else tocScanOuter nodes (i + 1) indices titles fuel

/-- The toc-region preprocessing pass: the set of node indices belonging to
a detected toc run, and the cleaned toc reference titles. -/
def tocScan (nodes : List DomNode) : List Nat × List String :=
  tocScanOuter nodes 0 [] [] (nodes.length + 1)

/-! ## Document structurer: chapter-type selection -/

/-- Count, per numbering unit, the nodes whose trimmed text matches that
unit's heading pattern; each node counts for at most one unit, tried in the
order 章, 部分, 篇. -/
def countChapterTypes (nodes : List DomNode) : Nat × Nat × Nat :=
  nodes.foldl
    (fun acc nd =>
      let t := trimStr nd.text
      if t = "" then acc
      else if chapterTest "章" t then (acc.1 + 1, acc.2.1, acc.2.2)
      else if chapterTest "部分" t then (acc.1, acc.2.1 + 1, acc.2.2)
      else if chapterTest "篇" t then (acc.1, acc.2.1, acc.2.2 + 1)
      else acc)
    (0, 0, 0)

/-- Chapter-type selection.  The unit 章 wins with two or more occurrences;
otherwise the units with at least three occurrences compete by count
(stably sorted in descending order); a tie among leaders is resolved by the
interactive choice, modelled by the integer parameter (the parsed reply
minus one), falling back to the first leader when out of range. -/
def insertCountDesc (x : String × Nat) : List (String × Nat) → List (String × Nat)
  | [] => [x]
  | y :: ys => if y.2 > x.2 then y :: insertCountDesc x ys else x :: y :: ys

/-- Stable descending sort by count (the comparator of the selection). -/
def sortCountDesc : List (String × Nat) → List (String × Nat)
  | [] => []
  | x :: xs => insertCountDesc x (sortCountDesc xs)

def detectChapterType (nodes : List DomNode) (promptChoice : Int) : String :=
  let c := countChapterTypes nodes
  if c.1 ≥ 2 then "章"
  else
    let valid := sortCountDesc ([("章", c.1), ("部分", c.2.1), ("篇", c.2.2)].filter
      (fun p => p.2 ≥ 3))
    match valid with
    | [] => "章"
    | [p] => p.1
    | p :: rest =>
      let top := (p :: rest).filter (fun q => q.2 = p.2)
      match top with
      | [q] => q.1
      | _ =>
        if h : 0 ≤ promptChoice ∧ promptChoice.toNat < top.length then
          (top.get ⟨promptChoice.toNat, h.2⟩).1
        else (top.headD ("章", 0)).1

/-! ## Document structurer: main chapter-building pass -/

/-- Title of the synthetic front-matter chapter. -/
def introTitle : String := "文件封面/前言"

/-- Append markup to the front-matter chapter: create it when no chapter
exists yet; append only when the current (last) chapter is the front
matter, and drop the markup otherwise. -/
def addToIntro : List Chapter → String → List Chapter
  | [], h => [⟨"intro", introTitle, h⟩]
  | [c], h => if c.id = "intro" then [⟨c.id, c.title, c.content ++ h⟩] else [c]
  | c :: c' :: rest, h => c :: addToIntro (c' :: rest) h

/-- Append markup to the current (last) chapter, creating the front-matter
chapter when no chapter exists yet. -/
def appendContent : List Chapter → String → List Chapter
  | [], h => [⟨"intro", introTitle, h⟩]
  | [c], h => [⟨c.id, c.title, c.content ++ h⟩]
  | c :: c' :: rest, h => c :: appendContent (c' :: rest) h

/-- The blank-highlighting transform: globally wrap a run of two or more
underscores, an empty bracket pair, or an empty full-width parenthesis pair
in a highlight span. -/
def highlightBlanksChars : List Char → Nat → List Char
  | _, 0 => []
  | [], _ => []
  | c :: rest, fuel + 1 =>
    if c = '_' ∧ rest.head? = some '_' then
      let run := (c :: rest).takeWhile (· = '_')
      "<span class=\"highlight-blank\">".toList ++ run ++ "</span>".toList ++
        highlightBlanksChars ((c :: rest).drop run.length) fuel
    else if c = '[' ∧ ((rest.dropWhile jsWs).head? = some ']') then
      let ws := rest.takeWhile jsWs
      "<span class=\"highlight-blank\">".toList ++ ('[' :: ws ++ [']']) ++ "</span>".toList ++
        highlightBlanksChars ((rest.dropWhile jsWs).drop 1) fuel
    else if c = '（' ∧ ((rest.dropWhile jsWs).head? = some '）') then
      let ws := rest.takeWhile jsWs
      "<span class=\"highlight-blank\">".toList ++ ('（' :: ws ++ ['）']) ++ "</span>".toList ++
        highlightBlanksChars ((rest.dropWhile jsWs).drop 1) fuel
    else c :: highlightBlanksChars rest fuel

/-- Blank highlighting on strings. -/
def highlightBlanks (s : String) : String :=
  String.mk (highlightBlanksChars s.toList (s.toList.length + 1))

/-- State of the chapter-building pass: the chapters built so far (the
current chapter is the last one) and the set of normalized titles already
accepted. -/
structure BuildState where
  chapters : List Chapter
  seen : List String
deriving Repr

/-- One step of the chapter-building pass over an indexed node.  Empty
non-table nodes are skipped; toc-region nodes, toc-noise lines and
page-numbered headings go to the front matter; a node matching the selected
heading pattern that is a heading tag, bold, or short becomes a new chapter
unless its normalized title repeats; every other node's markup (with blanks
highlighted for paragraph, span and heading tags) accrues to the current
chapter. -/
def structStep (tocIdx : List Nat) (unit : String) (s : BuildState)
    (p : Nat × DomNode) : BuildState :=
  let index := p.1
  let child := p.2
  let text := trimStr child.text
  if text = "" ∧ child.tag ≠ "TABLE" then s
  else if tocIdx.contains index then
    { s with chapters := addToIntro s.chapters child.html }
  else if text.length > 3 ∧ tocNoiseTest text then
    { s with chapters := addToIntro s.chapters child.html }
  else if tocPageNumberTest text then
    { s with chapters := addToIntro s.chapters child.html }
  else
    let matchesRegex := chapterTest unit text
    let hasVisualWeight := child.tag = "H1" ∨ child.tag = "H2" ∨ child.tag = "H3" ∨ child.bold
    let isShortTitle := text.length < 50
    if matchesRegex ∧ (hasVisualWeight ∨ isShortTitle) then
      let nt := normalizeTitle text
      if s.seen.contains nt then s
      else
        { chapters := s.chapters ++ [⟨"chapter-" ++ toString s.chapters.length, text, ""⟩],
          seen := nt :: s.seen }
    else
      let itemHtml :=
        if child.tag = "P" ∨ child.tag = "SPAN" ∨ child.tag.startsWith "H" then
          highlightBlanks child.html
        else child.html
      { s with chapters := appendContent s.chapters itemHtml }

/-- The whole chapter-building pass over the indexed node list. -/
def buildChapters (tocIdx : List Nat) (unit : String) (nodes : List DomNode) : BuildState :=
  nodes.enum.foldl (structStep tocIdx unit) ⟨[], []⟩

/-- Whole-document fallback: when the pass produced only an empty front
matter, the entire raw markup becomes its content. -/
def rawChapters (tocIdx : List Nat) (unit : String) (nodes : List DomNode)
    (html : String) : List Chapter :=
  match (buildChapters tocIdx unit nodes).chapters with
  | [c] => if c.id = "intro" ∧ c.content = "" then [⟨c.id, c.title, html⟩] else [c]
  | cs => cs

/-! ## Document structurer: filtering, continuity and toc cross-check -/

/-- Minimum body-content length of a kept non-front-matter chapter. -/
def MIN_CONTENT_LENGTH : Nat := 200

/-- Keep the front matter when its stripped content is non-empty, and any
other chapter when its stripped content reaches the minimum length. -/
def contentFilter (chapters : List Chapter) : List Chapter :=
  chapters.filter
    (fun c =>
      let len := (trimStr (stripTags c.content)).length
      if c.id = "intro" then len > 0 else len ≥ MIN_CONTENT_LENGTH)

/-- Chinese numeral values up to twenty (the enumerated-word map). -/
def chineseNumMap : List (String × Nat) :=
  [("一", 1), ("二", 2), ("三", 3), ("四", 4), ("五", 5),
   ("六", 6), ("七", 7), ("八", 8), ("九", 9), ("十", 10),
   ("十一", 11), ("十二", 12), ("十三", 13), ("十四", 14), ("十五", 15),
   ("十六", 16), ("十七", 17), ("十八", 18), ("十九", 19), ("二十", 20)]

/-- The Chinese numeral class without 百 used by number extraction. -/
def isCn19 (c : Char) : Bool :=
  c = '一' || c = '二' || c = '三' || c = '四' || c = '五' ||
  c = '六' || c = '七' || c = '八' || c = '九' || c = '十'

/-- Number capture at a fixed position: 第, optional whitespace, either a
Chinese numeral run or a digit run, optional whitespace, then 章, 节, 篇 or
部. -/
def chapterNumberAt (cs : List Char) : Option String :=
  match cs with
  | '第' :: r =>
    let r1 := r.dropWhile jsWs
    let cn := r1.takeWhile isCn19
    let dg := r1.takeWhile Char.isDigit
    let num := if cn.length ≥ 1 then cn else dg
    if num.length ≥ 1 then
      match ((r1.drop num.length).dropWhile jsWs).head? with
      | some u => if u = '章' || u = '节' || u = '篇' || u = '部' then some (String.mk num) else none
      | none => none
    else none
  | _ => none

/-- Leftmost number capture in a title. -/
def chapterNumberChars : List Char → Option String
  | [] => none
  | c :: rest =>
    match chapterNumberAt (c :: rest) with
    | some v => some v
    | none => chapterNumberChars rest

/-- Extracted chapter number of a title: a digit capture is parsed as a
decimal; a Chinese capture is looked up in the numeral map. -/
def getChapterNumber (title : String) : Option Nat :=
  match chapterNumberChars title.toList with
  | none => none
  | some numStr =>
    if numStr.toList.all Char.isDigit ∧ numStr.toList.length ≥ 1 then
      some (digitsToNat numStr.toList)
    else
      match chineseNumMap.find? (fun p => p.1 = numStr) with
      | some p => some p.2
      | none => none

/-- Pair every chapter with its extracted number, dropping the failures. -/
def withNumbers (chapters : List Chapter) : List (Chapter × Nat) :=
  chapters.filterMap (fun c => (getChapterNumber c.title).map (fun n => (c, n)))

/-- Stable insertion into a number-sorted list. -/
def insertByNum (x : Chapter × Nat) : List (Chapter × Nat) → List (Chapter × Nat)
  | [] => [x]
  | y :: ys => if y.2 < x.2 then y :: insertByNum x ys else x :: y :: ys

/-- Stable sort by extracted number, ascending. -/
def sortByNum : List (Chapter × Nat) → List (Chapter × Nat)
  | [] => []
  | x :: xs => insertByNum x (sortByNum xs)

/-- The greedy continuity walk: starting at expected number one, accept a
chapter only when its number lies between the expected number and the
expected number plus two, then expect its successor; chapters before the
first number one are skipped. -/
def continuityGo : List (Chapter × Nat) → List (Chapter × Nat) → Nat → List (Chapter × Nat)
  | [], acc, _ => acc
  | p :: rest, acc, expected =>
    if acc = [] ∧ p.2 ≠ 1 then continuityGo rest acc expected
    else if expected ≤ p.2 ∧ p.2 ≤ expected + 2 then
      continuityGo rest (acc ++ [p]) (p.2 + 1)
    else continuityGo rest acc expected

/-- Continuity-validated chapter/number pairs of a sorted list. -/
def continuityWalk (l : List (Chapter × Nat)) : List (Chapter × Nat) :=
  continuityGo l [] 1

/-- Title normalization for toc matching: delete all whitespace, then
rewrite the first heading span (第, a numbering run, one of 章节篇部分) to
the canonical 章 form. -/
def normalizeForMatchAt (cs : List Char) : Option (List Char × List Char) :=
  match cs with
  | '第' :: r =>
    let num := r.takeWhile (fun c => isCn19 c || c.isDigit)
    if num.length ≥ 1 then
      match (r.drop num.length).head? with
      | some u =>
        if u = '章' || u = '节' || u = '篇' || u = '部' || u = '分' then
          some ('第' :: num ++ ['章'], r.drop (num.length + 1))
        else none
      | none => none
    else none
  | _ => none

/-- Rewrite the leftmost heading span to the 章 form. -/
def normalizeForMatchChars : List Char → List Char
  | [] => []
  | c :: rest =>
    match normalizeForMatchAt (c :: rest) with
    | some (repl, after) => repl ++ after
    | none => c :: normalizeForMatchChars rest

/-- Toc-matching normalization of a title. -/
def normalizeTitleForMatch (title : String) : String :=
  String.mk (normalizeForMatchChars (removeWs title).toList)

/-- Does a source chapter match a toc entry: equal normalized titles, or
one normalized title contains the other. -/
def tocEntryMatches (tocNorm : String) (c : Chapter) : Bool :=
  let nc := normalizeTitleForMatch c.title
  nc = tocNorm || strIncludes nc tocNorm || strIncludes tocNorm nc

/-- One toc entry's selection step: the first matching source chapter is
appended unless already selected. -/
def tocSelectStep (source : List Chapter) (acc : List Chapter) (t : String) : List Chapter :=
  match source.find? (tocEntryMatches (normalizeTitleForMatch t)) with
  | some m => if acc.contains m then acc else acc ++ [m]
  | none => acc

/-- Re-select the chapters in toc order: for each toc entry take the first
matching source chapter not already selected; fall back to the source list
when fewer than half of it was matched. -/
def tocSelect (tocTitles : List String) (source : List Chapter) : List Chapter :=
  let selected := tocTitles.foldl (tocSelectStep source) []
  if 2 * selected.length < source.length then source else selected

/-- The structurer.  The interactive tie-break of chapter-type selection is
the integer parameter; the node list is the converted document body and the
string the full raw markup. -/
def extractPerfectStructure (name : String) (nodes : List DomNode) (html : String)
    (promptChoice : Int) : ParsedDocument :=
  let unit := detectChapterType nodes promptChoice
  let scan := tocScan nodes
  let tocIdx := scan.1
  let tocTitles := scan.2
  let all := rawChapters tocIdx unit nodes html
  let filtered := contentFilter all
  let introChapter := filtered.find? (fun c => c.id = "intro")
  let numbered := filtered.filter (fun c => c.id ≠ "intro")
  let pairs := sortByNum (withNumbers numbered)
  let continuous := continuityWalk pairs
  let source := if continuous.length > 0 then continuous.map Prod.fst
    else pairs.map Prod.fst
  let finalChapters := if tocTitles.length ≥ 3 then tocSelect tocTitles source else source
  { name := name,
    chapters := (match introChapter with | some c => [c] | none => []) ++ finalChapters,
    rawHtml := html }

/-- The continuity-validated pairs of a document, as computed inside the
structurer (exposed for the continuity property). -/
def continuityPairsOf (nodes : List DomNode) (html : String) (promptChoice : Int) :
    List (Chapter × Nat) :=
  let unit := detectChapterType nodes promptChoice
  let scan := tocScan nodes
  let all := rawChapters scan.1 unit nodes html
  let filtered := contentFilter all
  let numbered := filtered.filter (fun c => c.id ≠ "intro")
  continuityWalk (sortByNum (withNumbers numbered))

/-! ## Table parsing for the basic-information sweep -/

/-- ASCII case-insensitive literal test at the head of a list. -/
def ciPrefixOf (pat : List Char) (cs : List Char) : Bool :=
  pat.length ≤ cs.length && ((pat.zip cs).all (fun p => p.1 = asciiLower p.2))

/-- Length of the first matching opening literal, if any. -/
def ciAnyOpen (opens : List String) (cs : List Char) : Option Nat :=
  (opens.find? (fun o => ciPrefixOf o.toList cs)).map (fun o => o.toList.length)

/-- Split at the first case-insensitive occurrence of either closing
literal: the content before it and the remainder after it. -/
def splitAtCiAny (closes : List String) : List Char → Option (List Char × List Char)
  | [] => none
  | c :: rest =>
    match (closes.find? (fun p => ciPrefixOf p.toList (c :: rest))) with
    | some p => some ([], (c :: rest).drop p.toList.length)
    | none => (splitAtCiAny closes rest).map (fun q => (c :: q.1, q.2))

/-- Extract the contents of every element span: an opening literal, a run of
non-closing-bracket characters, a closing bracket, then the lazily matched
content up to the first closing literal.  An opening literal without a
completed span is skipped. -/
def extractElems (opens closes : List String) (cs : List Char) (fuel : Nat) : List (List Char) :=
  match fuel, cs with
  | 0, _ => []
  | _, [] => []
  | fuel + 1, c :: rest =>
    match ciAnyOpen opens (c :: rest) with
    | some k =>
      let after := (c :: rest).drop k
      if after.contains '>' then
        let content := (after.dropWhile (· ≠ '>')).drop 1
        match splitAtCiAny closes content with
        | some q => q.1 :: extractElems opens closes q.2 fuel
        | none => extractElems opens closes rest fuel
      else extractElems opens closes rest fuel
    | none => extractElems opens closes rest fuel

/-- Text of one table cell: tags deleted, whitespace collapsed, trimmed. -/
def cellText (cs : List Char) : String :=
  trimStr (String.mk (collapseWsChars (stripTagsWith [] cs)))

/-- All tables of a raw markup string as rows of cell texts; rows with no
cells are dropped. -/
def parseTableRows (rawHtml : String) : List (List (List String)) :=
  let cs := rawHtml.toList
  (extractElems ["<table"] ["</table>"] cs (cs.length + 1)).map
    (fun tbl =>
      ((extractElems ["<tr"] ["</tr>"] tbl (tbl.length + 1)).map
        (fun row =>
          (extractElems ["<td", "<th"] ["</td>", "</th>"] row (row.length + 1)).map cellText)).filter
        (fun cells => cells ≠ []))

/-- Numeric-cell class: digits, comma (half or full width), period. -/
def isNumClsChar (c : Char) : Bool :=
  c.isDigit || c = ',' || c = '，' || c = '.'

/-- A purely numeric cell (the column-matching test). -/
def isPureNum (s : String) : Bool :=
  s.toList ≠ [] && s.toList.all isNumClsChar

/-- A numeric-looking cell allowing a trailing unit: a numeric run, optional
whitespace, optionally 万, optionally 元, then the end. -/
def isNumWithUnit (s : String) : Bool :=
  let cs := s.toList
  let n := cs.takeWhile isNumClsChar
  let r1 := (cs.drop n.length).dropWhile jsWs
  let r2 := if r1.head? = some '万' then r1.drop 1 else r1
  let r3 := if r2.head? = some '元' then r2.drop 1 else r2
  n.length ≥ 1 && r3 = []

/-- Column-wise search of one table: for a header cell matching a label
pattern, the first purely numeric non-zero cell below it, with the unit
appended from the header or the unit hint. -/
def tableColScan (labelPats : List String) (unitHint : Option String)
    (rows : List (List String)) : Option String :=
  let headerRow := rows.headD []
  (List.range headerRow.length).findSome?
    (fun colIdx =>
      let headerCell := headerRow.getD colIdx ""
      if labelPats.any (fun pat => strIncludes headerCell pat) then
        (rows.drop 1).findSome?
          (fun dataRow =>
            if colIdx < dataRow.length then
              let dataCell := dataRow.getD colIdx ""
              if isPureNum dataCell ∧ dataCell ≠ "0" ∧ dataCell ≠ "" then
                some (if strIncludes headerCell "万元" ∨ unitHint = some "万元" then
                        dataCell ++ "万元"
                      else if strIncludes headerCell "元" then dataCell ++ "元"
                      else dataCell)
              else none
            else none)
      else none)

/-- Row-wise search of one table: a label cell, then the first
numeric-looking cell to its right, with the unit appended when the label or
the unit hint carries it and the value does not. -/
def tableRowScan (labelPats : List String) (unitHint : Option String)
    (rows : List (List String)) : Option String :=
  rows.findSome?
    (fun row =>
      (List.range row.length).findSome?
        (fun i =>
          let cell := row.getD i ""
          if labelPats.any (fun pat => strIncludes cell pat) then
            (row.drop (i + 1)).findSome?
              (fun nextCell =>
                if isNumWithUnit nextCell ∧ nextCell ≠ "" ∧ nextCell ≠ "\\" ∧ nextCell ≠ "/" then
                  some (if strIncludes cell "万元" ∨ unitHint = some "万元" then
                          if ¬ strIncludes nextCell "元" ∧ ¬ strIncludes nextCell "万" then
                            nextCell ++ "万元"
                          else nextCell
                        else nextCell)
                else none)
          else none))

/-- The tabular key/value extractor: over every table with at least a header
row and one data row, try column-wise matching first, then row-wise
matching.  The label patterns of the source are literal substrings. -/
def extractFromTable (labelPats : List String) (unitHint : Option String)
    (rawHtml : String) : Option String :=
  (parseTableRows rawHtml).findSome?
    (fun rows =>
      if rows.length < 2 then none
      else
        match tableColScan labelPats unitHint rows with
        | some v => some v
        | none => tableRowScan labelPats unitHint rows)

/-! ## Basic-information regex sweep: pattern matchers -/

/-- Leftmost match of a position matcher. -/
def scanFirst (f : List Char → Option α) : List Char → Option α
  | [] => f []
  | c :: rest =>
    match f (c :: rest) with
    | some v => some v
    | none => scanFirst f rest

/-- Consume a literal. -/
def litp (pat : String) (cs : List Char) : Option (List Char) :=
  if pat.toList.isPrefixOf cs then some (cs.drop pat.toList.length) else none

/-- Consume the separator class: a full-width or ASCII colon. -/
def sepColon : List Char → Option (List Char)
  | c :: r => if c = '：' ∨ c = ':' then some r else none
  | [] => none

/-- Greedy bounded class capture after a whitespace gap, with the engine's
backtracking: the whitespace run is consumed maximally first, then given
back one character at a time until the capture reaches its minimum. -/
def wsCapGo (cls : Char → Bool) (lo hi : Nat) (cs : List Char) : Nat → Option (List Char)
  | 0 =>
    let cap := (cs.takeWhile cls).take hi
    if lo ≤ cap.length then some cap else none
  | k + 1 =>
    let cap := (((cs.drop (k + 1)).takeWhile cls)).take hi
    if lo ≤ cap.length then some cap else wsCapGo cls lo hi cs k

/-- Whitespace gap followed by a bounded greedy class capture. -/
def wsBacktrackCapture (cls : Char → Bool) (lo hi : Nat) (cs : List Char) :
    Option (List Char) :=
  wsCapGo cls lo hi cs (cs.takeWhile jsWs).length

/-- A label-anchored capture pattern: the label literal, a colon, a
whitespace gap, then a bounded class capture. -/
def labelCapAt (label : String) (cls : Char → Bool) (lo hi : Nat)
    (cs : List Char) : Option String :=
  (litp label cs).bind fun r =>
    (sepColon r).bind fun r2 =>
      (wsBacktrackCapture cls lo hi r2).map String.mk

/-- First pattern that matches somewhere with a non-empty capture; the
captured text is trimmed. -/
def extractFirst (pats : List (List Char → Option String)) (cs : List Char) : Option String :=
  match pats with
  | [] => none
  | p :: rest =>
    match scanFirst p cs with
    | some v => if v ≠ "" then some (trimStr v) else extractFirst rest cs
    | none => extractFirst rest cs

/-- Class of the project-name and location captures: anything but a
full-width period or a newline. -/
def clsNotPeriodNl (c : Char) : Bool := !(c = '。' || c = '\n')

/-- Class of the organization captures: anything but a full-width comma,
full-width period or newline. -/
def clsNotCommaPeriodNl (c : Char) : Bool := !(c = '，' || c = '。' || c = '\n')

/-- Class of the deadline captures: digits, date and time words,
whitespace, colons, dash and slash. -/
def clsDeadline (c : Char) : Bool :=
  c.isDigit || c = '年' || c = '月' || c = '日' || c = '时' || c = '分' || c = '秒' ||
  jsWs c || c = ':' || c = '：' || c = '-' || c = '/'

/-- ASCII letter or digit. -/
def isAsciiAlnum (c : Char) : Bool :=
  ('A' ≤ c ∧ c ≤ 'Z') || ('a' ≤ c ∧ c ≤ 'z') || c.isDigit

/-- The project-code class: ASCII letters, digits, dash, underscore. -/
def isCodeChar (c : Char) : Bool := isAsciiAlnum c || c = '-' || c = '_'

/-- Greedy continuation groups of the project-code capture: a whitespace
gap, a dash or underscore, a whitespace gap, then letters and digits. -/
def codeGroups (cap : List Char) (cs : List Char) (fuel : Nat) : List Char :=
  match fuel with
  | 0 => cap
  | fuel + 1 =>
    let w1 := cs.takeWhile jsWs
    let r1 := cs.drop w1.length
    match r1 with
    | c :: r2 =>
      if c = '-' ∨ c = '_' then
        let w2 := r2.takeWhile jsWs
        let d := (r2.drop w2.length).takeWhile isAsciiAlnum
        if d.length ≥ 1 then
          codeGroups (cap ++ w1 ++ c :: w2 ++ d) ((r2.drop w2.length).drop d.length) fuel
        else cap
      else cap
    | [] => cap

/-- The project-code capture at a fixed position. -/
def codeCaptureAt (label : String) (cs : List Char) : Option String :=
  (litp label cs).bind fun r =>
    (sepColon r).bind fun r2 =>
      let r3 := r2.dropWhile jsWs
      let run := r3.takeWhile isCodeChar
      if run.length ≥ 1 then
        some (String.mk (codeGroups run (r3.drop run.length) (r3.length + 1)))
      else none

/-- The money capture requiring the unit 元: a numeric run, a whitespace
run, optionally 万, then 元. -/
def moneyCapReq (cs : List Char) : Option (List Char) :=
  let n := cs.takeWhile isNumClsChar
  if n.length = 0 then none
  else
    let w := (cs.drop n.length).takeWhile jsWs
    let r := (cs.drop n.length).drop w.length
    match r with
    | '万' :: '元' :: _ => some (n ++ w ++ ['万', '元'])
    | '元' :: _ => some (n ++ w ++ ['元'])
    | _ => none

/-- The money capture with optional units: a numeric run, a whitespace run,
optionally 万, optionally 元. -/
def moneyCapOpt (cs : List Char) : Option (List Char) :=
  let n := cs.takeWhile isNumClsChar
  if n.length = 0 then none
  else
    let w := (cs.drop n.length).takeWhile jsWs
    let r := (cs.drop n.length).drop w.length
    let r2 := if r.head? = some '万' then ['万'] else []
    let r3 := if (r.drop r2.length).head? = some '元' then ['元'] else []
    some (n ++ w ++ r2 ++ r3)

/-- Label, colon, whitespace, then a money capture. -/
def labelMoneyAt (label : String) (req : Bool) (cs : List Char) : Option String :=
  (litp label cs).bind fun r =>
    (sepColon r).bind fun r2 =>
      ((if req then moneyCapReq else moneyCapOpt) (r2.dropWhile jsWs)).map String.mk

/-- Consume one optional character from a set. -/
def optChar (set : List Char) (cs : List Char) : List Char :=
  match cs with
  | c :: r => if set.contains c then r else cs
  | [] => cs

/-- The third budget label: 采购预算, optional parenthesis, optional 万,
optional 元, optional closing parenthesis, then the colon. -/
def budgetP3At (cs : List Char) : Option String :=
  (litp "采购预算" cs).bind fun r =>
    let r1 := optChar ['）', ')'] (optChar ['元'] (optChar ['万'] (optChar ['（', '('] r)))
    (sepColon r1).bind fun r2 =>
      (moneyCapOpt (r2.dropWhile jsWs)).map String.mk

/-- The validity capture: a digit run, a whitespace run, then one or more
duration unit characters. -/
def validityCap (cs : List Char) : Option (List Char) :=
  let d := cs.takeWhile Char.isDigit
  if d.length = 0 then none
  else
    let w := (cs.drop d.length).takeWhile jsWs
    let u := ((cs.drop d.length).drop w.length).takeWhile
      (fun c => c = '天' || c = '日' || c = '个' || c = '月' || c = '年')
    if u.length ≥ 1 then some (d ++ w ++ u) else none

/-- Take one or two digits such that the continuation succeeds, preferring
two (the greedy bounded digit quantifier with backtracking). -/
def digits12 (cs : List Char) (cont : List Char → Option (List Char)) :
    Option (List Char) :=
  let r := cs.takeWhile Char.isDigit
  if r.length ≥ 2 then
    match (cont (cs.drop 2)).map (fun t => r.take 2 ++ t) with
    | some v => some v
    | none =>
      if r.length ≥ 1 then (cont (cs.drop 1)).map (fun t => r.take 1 ++ t) else none
  else if r.length = 1 then (cont (cs.drop 1)).map (fun t => r.take 1 ++ t)
  else none

/-- The bare date-time pattern: four digits, a year separator, one or two
digits, a month separator, one or two digits, an optional 日, whitespace,
one or two digits, a colon, two digits. -/
def dateAt (cs : List Char) : Option String :=
  let d4 := cs.takeWhile Char.isDigit
  if d4.length = 4 then
    match cs.drop 4 with
    | c1 :: r1 =>
      if c1 = '-' ∨ c1 = '/' ∨ c1 = '年' then
        (digits12 r1 (fun r2 =>
          match r2 with
          | c2 :: r3 =>
            if c2 = '-' ∨ c2 = '/' ∨ c2 = '月' then
              (digits12 r3 (fun r4 =>
                let r5 := if r4.head? = some '日' then r4.drop 1 else r4
                let day := if r4.head? = some '日' then ['日'] else []
                let w := r5.takeWhile jsWs
                (digits12 (r5.drop w.length) (fun r6 =>
                  match r6 with
                  | c3 :: r7 =>
                    if c3 = '：' ∨ c3 = ':' then
                      let mins := r7.takeWhile Char.isDigit
                      if mins.length ≥ 2 then some (c3 :: mins.take 2) else none
                    else none
                  | [] => none)).map (fun t => day ++ w ++ t))).map (fun t => c2 :: t)
            else none
          | [] => none)).map (fun t => String.mk (d4 ++ c1 :: t))
      else none
    | [] => none
  else none

/-- Match one alternative from an ordered list at a fixed position,
returning the matched text and the remainder. -/
def matchAlts (alts : List (String × List Char)) (cs : List Char) :
    Option (List Char × List Char) :=
  match alts with
  | [] => none
  | (s, opt) :: rest =>
    if s.toList.isPrefixOf cs then
      let base := s.toList
      let consume := fun (acc : List Char × List Char) (c : Char) =>
        match acc.2 with
        | c' :: r' => if c' = c then (acc.1 ++ [c], r') else acc
        | [] => acc
      some (opt.foldl consume (base, cs.drop base.length))
    else matchAlts rest cs

/-- Label, colon, whitespace, then one of the alternatives. -/
def labelAltsAt (label : String) (alts : List (String × List Char)) (cs : List Char) :
    Option String :=
  (litp label cs).bind fun r =>
    (sepColon r).bind fun r2 =>
      (matchAlts alts (r2.dropWhile jsWs)).map (fun p => String.mk p.1)

/-- The bidding-method alternatives of the colon-anchored patterns. -/
def methodAlts1 : List (String × List Char) :=
  [("公开招标", []), ("邀请招标", []), ("竞争性谈判", []), ("竞争性磋商", []),
   ("单一来源", ['采', '购']), ("询价采购", []), ("框架协议", []), ("邀标", []),
   ("比选", []), ("比价", [])]

/-- The bidding-method alternatives after 本项目采用. -/
def methodAlts3 : List (String × List Char) :=
  [("公开招标", []), ("邀请招标", []), ("竞争性谈判", []), ("竞争性磋商", []),
   ("单一来源", ['采', '购']), ("询价采购", []), ("比选", []), ("比价", [])]

/-- The bidding-method alternatives of the 进行 pattern (all literals). -/
def methodAlts4 : List (String × List Char) :=
  [("公开招标", []), ("邀请招标", []), ("竞争性谈判", []), ("竞争性磋商", []),
   ("单一来源采购", []), ("询价采购", []), ("比选", []), ("比价", [])]

/-- The 进行 pattern: an alternative, a run of 方 or 式, the literal 进行. -/
def methodJinxingAt (cs : List Char) : Option String :=
  (matchAlts methodAlts4 cs).bind fun p =>
    let r := p.2.dropWhile (fun c => c = '方' || c = '式')
    if "进行".toList.isPrefixOf r then some (String.mk p.1) else none

/-- The bond sentinel alternatives: 不 with a requirement run, 免 with a
collection run, or 无. -/
def bondSentinelAt (cs : List Char) : Option String :=
  match cs with
  | '不' :: r =>
    let run := r.takeWhile (fun c => c = '需' || c = '要' || c = '求' || c = '提' || c = '交')
    if run.length ≥ 1 then some (String.mk ('不' :: run)) else none
  | '免' :: r =>
    let run := r.takeWhile (fun c => c = '收' || c = '交' || c = '缴')
    if run.length ≥ 1 then some (String.mk ('免' :: run)) else none
  | '无' :: _ => some "无"
  | _ => none

/-! ## Basic-information regex sweep: field post-processing -/

/-- Strip the trailing run of separator punctuation and whitespace. -/
def stripTrailingSep (v : String) : String :=
  String.mk
    (v.toList.reverse.dropWhile
      (fun c => c = '：' || c = ':' || c = ',' || c = '，' || jsWs c)).reverse

/-- First occurrence index of a literal in a string. -/
def indexOfSub (s sub : String) : Option Nat := listIndexOfSub s.toList sub.toList

/-- The organization stop keywords, in source order. -/
def stopKeywords : List String :=
  ["地址", "联系人", "电话", "传真", "邮编", "邮箱",
   "网址", "账号", "开户", "账户", "法定代表人",
   "联系方式", "通讯地址", "办公地址", "负责人",
   "项目经理", "技术负责", "售后"]

/-- The organization suffix words, in source order. -/
def orgSuffixes : List String :=
  ["有限公司", "股份公司", "有限责任公司", "集团公司",
   "公司", "集团", "中心", "研究院", "研究所", "事务所",
   "管理局", "管理处", "管理中心", "服务中心",
   "委员会", "办公室", "局", "院", "所", "站", "队", "部"]

/-- Truncate at a stop keyword occurring after the first position, applied
sequentially for every keyword. -/
def applyStopKeywords (v : String) : String :=
  stopKeywords.foldl
    (fun v kw =>
      match indexOfSub v kw with
      | some idx => if idx > 0 then trimStr (String.mk (v.toList.take idx)) else v
      | none => v)
    v

/-- Cut after the first organization suffix found after the first position
(only the first such suffix in list order applies). -/
def applyOrgSuffix (v : String) : String :=
  match orgSuffixes.find? (fun suf => ((indexOfSub v suf).getD 0) > 0) with
  | some suf =>
    let idx := (indexOfSub v suf).getD 0
    let cut := idx + suf.toList.length
    if cut < v.toList.length then String.mk (v.toList.take cut) else v
  | none => v

/-- The organization extractor: the first pattern whose captured value,
after stop-keyword truncation, suffix cutting and separator stripping, has
a length between four and fifty. -/
def extractOrganization (pats : List (List Char → Option String)) (cs : List Char) :
    Option String :=
  match pats with
  | [] => none
  | p :: rest =>
    match scanFirst p cs with
    | some v0 =>
      if v0 ≠ "" then
        let v1 := applyOrgSuffix (applyStopKeywords (trimStr v0))
        let v2 := stripTrailingSep v1
        if 4 ≤ v2.toList.length ∧ v2.toList.length ≤ 50 then some v2
        else extractOrganization rest cs
      else extractOrganization rest cs
    | none => extractOrganization rest cs

/-- A parenthesized enumerator at a fixed position: an opening parenthesis,
a numbering run, a closing parenthesis. -/
def stopParenEnumAt (cs : List Char) : Bool :=
  match cs with
  | c :: r =>
    if c = '（' ∨ c = '(' then
      let run := r.takeWhile (fun d => isCn19 d || d.isDigit)
      run.length ≥ 1 &&
        (match (r.drop run.length).head? with
         | some d => d = '）' || d = ')'
         | none => false)
    else false
  | [] => false

/-- A numbering marker at a fixed position: a numbering run followed by an
enumeration delimiter. -/
def stopNumMarkAt (cs : List Char) : Bool :=
  let run := cs.takeWhile (fun d => isCn19 d || d.isDigit)
  run.length ≥ 1 &&
    (match (cs.drop run.length).head? with
     | some d => d = '、' || d = '．' || d = '.'
     | none => false)

/-- A literal alternation at a fixed position. -/
def stopLitsAt (lits : List String) (cs : List Char) : Bool :=
  lits.any (fun l => l.toList.isPrefixOf cs)

/-- Leftmost index where a positional test holds. -/
def findPatIdx (f : List Char → Bool) : List Char → Option Nat
  | [] => if f [] then some 0 else none
  | c :: rest =>
    if f (c :: rest) then some 0
    else (findPatIdx f rest).map (· + 1)

/-- The next-field stop patterns, in source order. -/
def fieldStopPats : List (List Char → Bool) :=
  [stopParenEnumAt, stopNumMarkAt,
   stopLitsAt ["项目编号", "采购编号", "招标编号"],
   stopLitsAt ["项目内容", "服务名称", "服务期限", "包号", "分包"],
   stopLitsAt ["采购人", "招标人", "代理机构"]]

/-- Truncate at each stop pattern occurring after the first position,
applied sequentially. -/
def applyFieldStops (v : String) : String :=
  fieldStopPats.foldl
    (fun v f =>
      match findPatIdx f v.toList with
      | some idx => if idx > 0 then trimStr (String.mk (v.toList.take idx)) else v
      | none => v)
    v

/-- The next-field extractor: the first pattern whose captured value, after
stop-pattern truncation and separator stripping, has a length between five
and eighty. -/
def extractUntilNextField (pats : List (List Char → Option String)) (cs : List Char) :
    Option String :=
  match pats with
  | [] => none
  | p :: rest =>
    match scanFirst p cs with
    | some v0 =>
      if v0 ≠ "" then
        let v2 := stripTrailingSep (applyFieldStops (trimStr v0))
        if 5 ≤ v2.toList.length ∧ v2.toList.length ≤ 80 then some v2
        else extractUntilNextField rest cs
      else extractUntilNextField rest cs
    | none => extractUntilNextField rest cs

/-- The first purchaser pattern: 采购人, an optional opening parenthesis,
甲方, an optional closing parenthesis, the colon, then the organization
capture. -/
def purchaserP1At (cs : List Char) : Option String :=
  (litp "采购人" cs).bind fun r =>
    let r1 := optChar ['（', '('] r
    (litp "甲方" r1).bind fun r2 =>
      let r3 := optChar ['）', ')'] r2
      (sepColon r3).bind fun r4 =>
        (wsBacktrackCapture clsNotCommaPeriodNl 2 80 r4).map String.mk

/-- A label pattern capturing the validity duration after the colon. -/
def validityColonAt (label : String) (cs : List Char) : Option String :=
  (litp label cs).bind fun r =>
    (sepColon r).bind fun r2 =>
      (validityCap (r2.dropWhile jsWs)).map String.mk

/-- The second validity pattern: 投标有效期, a run of 为, the capture. -/
def validityWeiAt (cs : List Char) : Option String :=
  (litp "投标有效期" cs).bind fun r =>
    (validityCap (r.dropWhile (· = '为'))).map String.mk

/-- The bond sentinel pattern: 保证金, the colon, whitespace, a sentinel. -/
def bondSentinelPatAt (cs : List Char) : Option String :=
  (litp "保证金" cs).bind fun r =>
    (sepColon r).bind fun r2 => bondSentinelAt (r2.dropWhile jsWs)

/-! ## Basic-information regex sweep: the record and the sweep -/

/-- The deterministic basic-information record. -/
structure RegexInfo where
  projectName : Option String := none
  projectCode : Option String := none
  purchaser : Option String := none
  agency : Option String := none
  deadline : Option String := none
  budget : Option String := none
  location : Option String := none
  validity : Option String := none
  bond : Option String := none
  biddingMethod : Option String := none
deriving DecidableEq, Repr

/-- The basic-information sweep over the raw markup: tags become spaces,
whitespace collapses, then every field applies its ordered pattern list;
budget and bond additionally consult the tables and prefer the unit-bearing
or numeric result. -/
def extractBasicInfoByRegex (rawHtml : String) : RegexInfo :=
  let text := collapseWsChars (stripTagsWith [' '] rawHtml.toList)
  let budgetTable := extractFromTable ["预算", "最高限价", "控制价", "采购金额"] (some "万元") rawHtml
  let budgetText := extractFirst
    [labelMoneyAt "预算金额" true, labelMoneyAt "最高限价" true, budgetP3At,
     labelMoneyAt "项目预算" true, labelMoneyAt "控制价" true] text
  let bondTable := extractFromTable ["投标保证金", "保证金"] (some "万元") rawHtml
  let bondText := extractFirst
    [labelMoneyAt "投标保证金" true, labelMoneyAt "保证金金额" true,
     labelMoneyAt "保证金" true, bondSentinelPatAt] text
  { projectName := extractUntilNextField
      [labelCapAt "项目名称" clsNotPeriodNl 5 150,
       labelCapAt "采购项目" clsNotPeriodNl 5 150,
       labelCapAt "工程名称" clsNotPeriodNl 5 150] text,
    projectCode := extractFirst
      [codeCaptureAt "项目编号", codeCaptureAt "采购编号", codeCaptureAt "招标编号"] text,
    purchaser := extractOrganization
      [purchaserP1At,
       labelCapAt "采购人" clsNotCommaPeriodNl 2 80,
       labelCapAt "招标人" clsNotCommaPeriodNl 2 80,
       labelCapAt "业主单位" clsNotCommaPeriodNl 2 80] text,
    agency := extractOrganization
      [labelCapAt "代理机构" clsNotCommaPeriodNl 2 80,
       labelCapAt "招标代理" clsNotCommaPeriodNl 2 80,
       (fun cs =>
         (litp "采购代理" cs).bind fun r =>
           (sepColon (r.dropWhile (fun c => c = '机' || c = '构'))).bind fun r2 =>
             (wsBacktrackCapture clsNotCommaPeriodNl 2 80 r2).map String.mk)] text,
    deadline := extractFirst
      [labelCapAt "投标截止时间" clsDeadline 1 1000000000,
       labelCapAt "截止时间" clsDeadline 1 1000000000,
       labelCapAt "开标时间" clsDeadline 1 1000000000,
       dateAt] text,
    budget :=
      match budgetTable, budgetText with
      | some t, some x =>
        some (if strIncludes t "元" then t else if strIncludes x "元" then x else t)
      | some t, none => some t
      | none, r => r,
    location := extractFirst
      [labelCapAt "开标地点" clsNotCommaPeriodNl 5 80,
       labelCapAt "投标地点" clsNotCommaPeriodNl 5 80,
       labelCapAt "评标地点" clsNotCommaPeriodNl 5 80] text,
    validity := extractFirst
      [validityColonAt "投标有效期", validityWeiAt, validityColonAt "有效期"] text,
    bond :=
      match bondTable, bondText with
      | some t, some x =>
        let tableHasNumber := t.toList.any Char.isDigit
        let textHasNumber := x.toList.any Char.isDigit
        some (if tableHasNumber ∧ ¬ textHasNumber then t
              else if ¬ tableHasNumber ∧ textHasNumber then x
              else t)
      | some t, none => some t
      | none, r => r,
    biddingMethod := extractFirst
      [labelAltsAt "采购方式" methodAlts1,
       labelAltsAt "招标方式" methodAlts1,
       (fun cs =>
         (litp "本项目采用" cs).bind fun r =>
           (matchAlts methodAlts3 (r.dropWhile jsWs)).map (fun p => String.mk p.1)),
       methodJinxingAt,
       labelAltsAt "采购组织形式"
         [("集中采购", []), ("分散采购", []), ("自行采购", []), ("委托采购", [])],
       labelAltsAt "项目类型"
         [("货物", ['类']), ("服务", ['类']), ("工程", ['类'])]] text }

/-! ## Risk candidate sweep -/

/-- The high-risk keywords of the candidate sweep, in source order. -/
def RISK_KEYWORDS : List String :=
  ["废标", "无效", "拒绝", "★", "▲", "☆", "△", "*", "※",
   "实质性", "否决", "不得", "不允许", "禁止",
   "不予受理", "取消资格", "失效"]

/-- The emphasis mark characters of the star pattern. -/
def starSymbols : List Char := ['★', '▲', '☆', '△', '※', '*']

/-- A provisional risk candidate. -/
structure RawRiskCandidate where
  text : String
  chapterTitle : String
  matchedKeyword : String
deriving DecidableEq, Repr

/-- Global matches of the star pattern: an emphasis mark, the rest of its
line, and optionally the newline with the following run free of newlines
and emphasis marks. -/
def starMatchesChars (cs : List Char) (fuel : Nat) : List (List Char) :=
  match fuel, cs with
  | 0, _ => []
  | _, [] => []
  | fuel + 1, c :: rest =>
    if starSymbols.contains c then
      let line := (c :: rest).takeWhile (· ≠ '\n')
      let after := (c :: rest).drop line.length
      match after with
      | '\n' :: r2 =>
        let cont := r2.takeWhile (fun ch => ch ≠ '\n' ∧ ¬ starSymbols.contains ch)
        (line ++ '\n' :: cont) :: starMatchesChars (r2.drop cont.length) fuel
      | _ => line :: starMatchesChars after fuel
    else starMatchesChars rest fuel

/-- Paragraph split at sentence and clause boundaries: runs of full-width
period, full-width semicolon, newline or carriage return separate pieces. -/
def isParaDelim (c : Char) : Bool := c = '。' || c = '；' || c = '\n' || c = '\r'

/-- Paragraph splitting with a step budget. -/
def splitParasGo : Nat → List Char → List (List Char)
  | 0, _ => [[]]
  | _, [] => [[]]
  | fuel + 1, c :: rest =>
    if isParaDelim c then [] :: splitParasGo fuel (rest.dropWhile isParaDelim)
    else
      match splitParasGo fuel rest with
      | p :: ps => (c :: p) :: ps
      | [] => [[c]]

/-- Split a text into paragraph pieces. -/
def splitParas (cs : List Char) : List (List Char) := splitParasGo (cs.length + 1) cs

/-- Process the star matches of one chapter. -/
def starCandidatesStep (title : String) (acc : List RawRiskCandidate × List String)
    (m : List Char) : List RawRiskCandidate × List String :=
  let text := trimStr (String.mk m)
  if text.toList.length > 5 ∧ text.toList.length < 500 ∧ ¬ acc.2.contains text then
    let sym := (starSymbols.find? (fun s => text.toList.contains s)).map
      (fun c => String.mk [c])
    (acc.1 ++ [⟨text, title, sym.getD "★"⟩], text :: acc.2)
  else acc

/-- Process the keyword paragraphs of one chapter. -/
def paraCandidatesStep (title : String) (acc : List RawRiskCandidate × List String)
    (para : List Char) : List RawRiskCandidate × List String :=
  let t := trimStr (String.mk para)
  if acc.2.contains t then acc
  else
    match RISK_KEYWORDS.find? (fun kw => strIncludes t kw) with
    | some kw =>
      if ¬ acc.2.contains t then (acc.1 ++ [⟨t, title, kw⟩], t :: acc.2) else acc
    | none => acc

/-- The risk-candidate sweep: per chapter, strip tags, extract the emphasis
clauses, then the keyword-bearing paragraphs longer than ten characters;
deduplication is by exact trimmed text across the whole document. -/
def extractRiskCandidates (doc : ParsedDocument) : List RawRiskCandidate :=
  (doc.chapters.foldl
    (fun acc ch =>
      let plain := (stripTags ch.content).toList
      let acc1 := (starMatchesChars plain (plain.length + 1)).foldl
        (starCandidatesStep ch.title) acc
      ((splitParas plain).filter
        (fun p => (trimStr (String.mk p)).toList.length > 10)).foldl
        (paraCandidatesStep ch.title) acc1)
    ([], [])).1

/-! ## Markup slice extraction and chapter lookup -/

/-- The chapter-title keyword families. -/
def KW_scoring : List String := ["评分", "评审", "打分", "评标"]

def KW_technical : List String :=
  ["技术要求", "技术需求", "技术规格", "技术参数", "设备配置", "货物需求"]

def KW_format : List String :=
  ["投标文件格式", "响应文件格式", "文件组成", "投标文件的组成", "响应文件组成", "投标文件编制"]

def KW_notice : List String := ["招标公告", "采购公告", "邀请书", "公告"]

def KW_instructions : List String := ["投标人须知", "须知", "投标须知", "说明"]

/-- The exclusion keywords per role. -/
def EXCL_format : List String := ["合同", "协议", "范本", "草案"]

def EXCL_technical : List String := ["合同", "协议"]

/-- The contiguous CJK character class used by the core-word decomposition. -/
def isCJK (c : Char) : Bool := 0x4e00 ≤ c.toNat ∧ c.toNat ≤ 0x9fa5

/-- Maximal CJK runs of length at least two. -/
def cjkRuns (cs : List Char) (fuel : Nat) : List (List Char) :=
  match fuel, cs with
  | 0, _ => []
  | _, [] => []
  | fuel + 1, c :: rest =>
    if isCJK c then
      let run := (c :: rest).takeWhile isCJK
      if run.length ≥ 2 then run :: cjkRuns ((c :: rest).drop run.length) fuel
      else cjkRuns ((c :: rest).drop run.length) fuel
    else cjkRuns rest fuel

/-- Smart keyword match of a chapter title: direct containment, or a
keyword decomposing into at least two core words all contained in the
whitespace-stripped title. -/
def smartMatch (title : String) (keywords : List String) : Bool :=
  let nt := removeWs title
  keywords.any
    (fun kw =>
      strIncludes nt kw ||
        (let words := cjkRuns kw.toList (kw.toList.length + 1)
         words.length ≥ 2 && words.all (fun w => strIncludes nt (String.mk w))))

/-- Find the content of the first chapter matching the keywords and not
carrying an exclusion keyword. -/
def findChapterHtml (doc : ParsedDocument) (keywords excludes : List String) :
    Option String :=
  (doc.chapters.find?
    (fun c =>
      ¬ excludes.any (fun ek => strIncludes c.title ek) ∧ smartMatch c.title keywords)).map
    (fun c => c.content)

/-- The deterministic markup slices and their match status. -/
structure HtmlSlices where
  scoringTableHtml : Option String
  technicalChapterHtml : Option String
  formatChapterHtml : Option String
  scoringMatched : Bool
  technicalMatched : Bool
  formatMatched : Bool
deriving DecidableEq, Repr

/-- The slice-extraction stage. -/
def extractHtmlSlices (doc : ParsedDocument) : HtmlSlices :=
  let scoring := findChapterHtml doc KW_scoring []
  let technical := findChapterHtml doc KW_technical EXCL_technical
  let format := findChapterHtml doc KW_format EXCL_format
  { scoringTableHtml := scoring,
    technicalChapterHtml := technical,
    formatChapterHtml := format,
    scoringMatched := scoring.isSome,
    technicalMatched := technical.isSome,
    formatMatched := format.isSome }

/-- Delete the first heading span (第, numbering, unit, trailing whitespace)
of a title. -/
def stripChapterNumAt (cs : List Char) : Option (List Char) :=
  match cs with
  | '第' :: r =>
    let num := r.takeWhile (fun c => isCn19 c || c.isDigit)
    if num.length ≥ 1 then
      match (r.drop num.length).head? with
      | some u =>
        if u = '章' || u = '节' || u = '篇' || u = '部' then
          some ((r.drop (num.length + 1)).dropWhile jsWs)
        else none
      | none => none
    else none
  | _ => none

/-- Delete the leftmost heading span of a character list. -/
def stripChapterNumFirst : List Char → List Char
  | [] => []
  | c :: rest =>
    match stripChapterNumAt (c :: rest) with
    | some rem => rem
    | none => c :: stripChapterNumFirst rest

/-- Find a chapter's content by an oracle-suggested title: exact title
match, then numbering-stripped containment match, then at least half of
the core words contained. -/
def findChapterByTitle (doc : ParsedDocument) (title : Option String) : Option String :=
  match title with
  | none => none
  | some t =>
    if t = "" then none
    else
      let nt := String.mk (stripChapterNumFirst (removeWs t).toList)
      match doc.chapters.find? (fun c => c.title = t) with
      | some c => some c.content
      | none =>
        match doc.chapters.find?
          (fun c =>
            let nc := String.mk (stripChapterNumFirst (removeWs c.title).toList)
            nc = nt || strIncludes nc nt || strIncludes nt nc) with
        | some c => some c.content
        | none =>
          let words := cjkRuns nt.toList (nt.toList.length + 1)
          if words.length ≥ 1 then
            match doc.chapters.find?
              (fun c =>
                let cn := removeWs c.title
                ((words.filter (fun w => strIncludes cn (String.mk w))).length) ≥
                  (words.length + 1) / 2) with
            | some c => some c.content
            | none => none
          else none

/-! ## Synthesis: conflict fields and the information model -/

/-- One candidate value with its provenance. -/
structure FieldCandidate where
  value : String
  source : String
deriving DecidableEq, Repr

/-- A conflict-tracked field. -/
structure ConflictField where
  value : String
  isConflict : Bool
  candidates : List FieldCandidate
deriving DecidableEq, Repr

/-- The adjudicated basic information. -/
structure BasicInfo where
  projectName : ConflictField
  projectCode : ConflictField
  purchaser : ConflictField
  agency : ConflictField
  deadline : ConflictField
  budget : ConflictField
  location : ConflictField
  validity : ConflictField
  bond : ConflictField
  biddingMethod : ConflictField
deriving DecidableEq, Repr

/-- Risk severity. -/
inductive Severity where
  | high
  | medium
deriving DecidableEq, Repr

/-- The closed risk category set. -/
inductive RiskCategory where
  | qualification
  | commercial
  | technical
  | document
  | timeline
  | other
deriving DecidableEq, Repr

/-- One confirmed invalidation risk. -/
structure InvalidationRisk where
  originalText : String
  chapterTitle : String
  aiAnalysis : String
  severity : Severity
  category : RiskCategory
deriving DecidableEq, Repr

/-- The audit metadata. -/
structure AuditLogic where
  symbolDef : String
  chapterRef : String
  rejectKeywords : List String
deriving DecidableEq, Repr

/-- The synthesis result. -/
structure KeyInformation where
  basicInfo : BasicInfo
  invalidationRisks : List InvalidationRisk
  auditLogic : AuditLogic
  scoringTableHtml : Option String
  technicalChapterHtml : Option String
  formatChapterHtml : Option String
deriving DecidableEq, Repr

/-- One oracle-filtered risk; the chapter title and category may be absent
in the raw response (an absent title is the empty string). -/
structure FilteredRisk where
  originalText : String
  chapterTitle : String
  analysis : String
  severity : Severity
  category : Option RiskCategory
deriving DecidableEq, Repr

/-- The oracle's chapter-role suggestion. -/
structure ChapterMapping where
  technical : Option String
  scoring : Option String
  format : Option String
deriving DecidableEq, Repr

/-- The parsed oracle response. -/
structure AIAnalysisResult where
  basicInfo : RegexInfo
  filteredRisks : List FilteredRisk
  auditLogic : Option AuditLogic
  chapterMapping : Option ChapterMapping
deriving DecidableEq, Repr

/-- Value cleaning: absent, blank, a null word, 无 and 暂无 all map to the
absent value; anything else is trimmed. -/
def cleanValue : Option String → Option String
  | none => none
  | some v =>
    if v = "" then none
    else
      let t := trimStr v
      if t = "" ∨ lowerStr t = "null" ∨ t = "无" ∨ t = "暂无" then none else some t

/-- The normalization used for conflict comparison: strip whitespace,
lowercase. -/
def normalizeCmp (s : String) : String := lowerStr (removeWs s)

/-- Field adjudication: clean both values; the candidates are the cleaned
deterministic value and, when different from it, the cleaned oracle value;
a conflict is two present values differing after normalization; the
adjudicated value is the deterministic one, then the oracle one, then the
unrecognized sentinel. -/
def createConflictField (regexValue : Option String) (aiValue : Option String)
    (regexSource aiSource : String) : ConflictField :=
  let cleanRegex := cleanValue regexValue
  let cleanAI := cleanValue aiValue
  let candidates :=
    (match cleanRegex with
     | some r => [FieldCandidate.mk r regexSource]
     | none => []) ++
    (match cleanAI with
     | some a => if some a ≠ cleanRegex then [FieldCandidate.mk a aiSource] else []
     | none => [])
  let normalizedRegex := (cleanRegex.map normalizeCmp).getD ""
  let normalizedAI := (cleanAI.map normalizeCmp).getD ""
  let isConflict := cleanRegex.isSome && cleanAI.isSome &&
    decide (normalizedRegex ≠ normalizedAI)
  { value := (cleanRegex.getD (cleanAI.getD "未识别")),
    isConflict := isConflict,
    candidates := candidates }

/-- The provenance labels of the two sources. -/
def regexSourceLabel : String := "Regex(全文扫描)"

def aiSourceLabel : String := "AI(智能识别)"

/-- The unrecognized sentinel. -/
def unrecognized : String := "未识别"

/-- The fallback risk of one raw candidate: medium severity, other
category, annotated with the matched keyword and a manual-review notice. -/
def fallbackRisk (r : RawRiskCandidate) : InvalidationRisk :=
  { originalText := r.text,
    chapterTitle := r.chapterTitle,
    aiAnalysis := "[AI分析失败] 匹配关键词: " ++ r.matchedKeyword ++ "，请人工审核",
    severity := Severity.medium,
    category := RiskCategory.other }

/-- An oracle-confirmed risk, with the chapter title backfilled from the
best text-prefix-containing raw candidate when absent, and the category
defaulted. -/
def oracleRisk (cands : List RawRiskCandidate) (r : FilteredRisk) : InvalidationRisk :=
  { originalText := r.originalText,
    chapterTitle :=
      if r.chapterTitle ≠ "" then r.chapterTitle
      else
        match cands.find?
          (fun c => strIncludes c.text (String.mk (r.originalText.toList.take 20))) with
        | some c => if c.chapterTitle ≠ "" then c.chapterTitle else "未知章节"
        | none => "未知章节",
    aiAnalysis := r.analysis,
    severity := r.severity,
    category := r.category.getD RiskCategory.other }

/-- The default audit logic when the oracle supplied none. -/
def defaultAuditLogic : AuditLogic :=
  { symbolDef := "未能识别符号定义",
    chapterRef := "未能识别相关章节",
    rejectKeywords := RISK_KEYWORDS.take 5 }

/-- Resolve one slice: the deterministic slice wins; otherwise the oracle's
suggested chapter title is resolved against the document. -/
def resolveSlice (doc : ParsedDocument) (deterministic : Option String)
    (aiTitle : Option String) : Option String :=
  match deterministic with
  | some h => some h
  | none =>
    match aiTitle with
    | some t => if t = "" then none else findChapterByTitle doc (some t)
    | none => none

/-- The synthesizer: adjudicate every basic-information field, take the
oracle's risk list when non-empty and otherwise fall back to the first
twenty raw candidates, take the oracle's audit logic or the default, and
resolve the three role slices. -/
def synthesizeResults (doc : ParsedDocument) (regexInfo : RegexInfo)
    (aiResult : Option AIAnalysisResult) (rawRiskCandidates : List RawRiskCandidate)
    (htmlSlices : HtmlSlices) : KeyInformation :=
  let aiInfo := ((aiResult.map (fun a => a.basicInfo)).getD {})
  let basicInfo : BasicInfo :=
    { projectName := createConflictField regexInfo.projectName aiInfo.projectName
        regexSourceLabel aiSourceLabel,
      projectCode := createConflictField regexInfo.projectCode aiInfo.projectCode
        regexSourceLabel aiSourceLabel,
      purchaser := createConflictField regexInfo.purchaser aiInfo.purchaser
        regexSourceLabel aiSourceLabel,
      agency := createConflictField regexInfo.agency aiInfo.agency
        regexSourceLabel aiSourceLabel,
      deadline := createConflictField regexInfo.deadline aiInfo.deadline
        regexSourceLabel aiSourceLabel,
      budget := createConflictField regexInfo.budget aiInfo.budget
        regexSourceLabel aiSourceLabel,
      location := createConflictField regexInfo.location aiInfo.location
        regexSourceLabel aiSourceLabel,
      validity := createConflictField regexInfo.validity aiInfo.validity
        regexSourceLabel aiSourceLabel,
      bond := createConflictField regexInfo.bond aiInfo.bond
        regexSourceLabel aiSourceLabel,
      biddingMethod := createConflictField regexInfo.biddingMethod aiInfo.biddingMethod
        regexSourceLabel aiSourceLabel }
  let invalidationRisks :=
    match aiResult with
    | some a =>
      if a.filteredRisks.length > 0 then a.filteredRisks.map (oracleRisk rawRiskCandidates)
      else (rawRiskCandidates.take 20).map fallbackRisk
    | none => (rawRiskCandidates.take 20).map fallbackRisk
  let auditLogic := ((aiResult.bind (fun a => a.auditLogic)).getD defaultAuditLogic)
  let aiMapping := aiResult.bind (fun a => a.chapterMapping)
  { basicInfo := basicInfo,
    invalidationRisks := invalidationRisks,
    auditLogic := auditLogic,
    scoringTableHtml := resolveSlice doc htmlSlices.scoringTableHtml
      (aiMapping.bind (fun m => m.scoring)),
    technicalChapterHtml := resolveSlice doc htmlSlices.technicalChapterHtml
      (aiMapping.bind (fun m => m.technical)),
    formatChapterHtml := resolveSlice doc htmlSlices.formatChapterHtml
      (aiMapping.bind (fun m => m.format)) }

/-! ## The analysis pipeline with cooperative cancellation -/

/-- The abort outcome: a DOM exception with message and name. -/
structure DomAbort where
  message : String
  name : String
deriving DecidableEq, Repr

/-- The abort outcome thrown by the cancellation check. -/
def abortError : DomAbort := ⟨"Analysis cancelled", "AbortError"⟩

/-- The pipeline stages. -/
inductive Stage where
  | A
  | B
  | C
  | D
  | E
deriving DecidableEq, Repr

/-- The values the cancellation signal is observed to have at the six
points where the pipeline checks it: before stage A, before B, before C,
before the oracle call, immediately after the oracle call resolves, and
before synthesis. -/
structure AbortChecks where
  c0 : Bool
  c1 : Bool
  c2 : Bool
  c3 : Bool
  c4 : Bool
  c5 : Bool
deriving DecidableEq, Repr

/-- The analysis pipeline.  The oracle call is external: its parsed
response (absent on transport failure, malformed reply, or a fetch aborted
by the signal) is the parameter.  The returned trace records the stages
whose bodies ran. -/
def analyzeBidDocument (doc : ParsedDocument) (sig : AbortChecks)
    (oracleResponse : Option AIAnalysisResult) :
    Except DomAbort KeyInformation × List Stage :=
  if sig.c0 then (Except.error abortError, [])
  else
    let rawRiskCandidates := extractRiskCandidates doc
    if sig.c1 then (Except.error abortError, [Stage.A])
    else
      let regexInfo := extractBasicInfoByRegex doc.rawHtml
      if sig.c2 then (Except.error abortError, [Stage.A, Stage.B])
      else
        let htmlSlices := extractHtmlSlices doc
        if sig.c3 then (Except.error abortError, [Stage.A, Stage.B, Stage.C])
        else
          let aiResult := oracleResponse
          if sig.c4 then (Except.error abortError, [Stage.A, Stage.B, Stage.C, Stage.D])
          else if sig.c5 then (Except.error abortError, [Stage.A, Stage.B, Stage.C, Stage.D])
          else
            (Except.ok (synthesizeResults doc regexInfo aiResult rawRiskCandidates htmlSlices),
             [Stage.A, Stage.B, Stage.C, Stage.D, Stage.E])

/-! ## Concrete documents used as evaluation inputs -/

/-- A plain paragraph node. -/
def para (t : String) : DomNode := ⟨"P", t, "<p>" ++ t ++ "</p>", false⟩

/-- A paragraph of two hundred copies of one character (enough body content
to pass the minimum-content filter). -/
def body200 (c : Char) : DomNode := para (String.mk (List.replicate 200 c))

/-- A document whose leading toc run lists the chapters in the order two,
three, one, while the body carries them in numeric order. -/
def tocReorderNodes : List DomNode :=
  [para "第二章 Alpha", para "第三章 Beta", para "第一章 Gamma",
   para "第一章 Gamma", body200 'a',
   para "第二章 Alpha", body200 'b',
   para "第三章 Beta", body200 'c']

/-- A document whose toc run (terminated by the repeated chapter number
two) sits after the first real chapter heading. -/
def tocAfterHeadingNodes : List DomNode :=
  [para "第一章 Intro", body200 'a',
   para "第二章 A", para "第三章 B", para "第四章 C",
   para "第二章 A", body200 'b',
   para "第三章 B", body200 'c',
   para "第四章 C", body200 'd']

/-- The default node for indexed lookup in statements. -/
def blankNode : DomNode := ⟨"", "", "", false⟩

/-- The budget label patterns of the tabular extractor. -/
def budgetLabelPats : List String := ["预算", "最高限价", "控制价", "采购金额"]

/-- The pair of identifying fields of a chapter. -/
def idTitle (c : Chapter) : String × String := (c.id, c.title)

/-- An empty parsed document. -/
def emptyDoc : ParsedDocument := ⟨"doc", [], ""⟩

/-- Slices with no deterministic match. -/
def emptySlices : HtmlSlices := ⟨none, none, none, false, false, false⟩

/-- A sample raw risk candidate. -/
def sampleCand : RawRiskCandidate := ⟨"投标文件逾期送达的，作废标处理", "第一章", "废标"⟩

/-- Distinctness of normalized titles. -/
def ntNe (a b : Chapter) : Prop := normalizeTitle a.title ≠ normalizeTitle b.title

/-- The continuity relation between consecutive accepted chapters: the
number strictly increases and skips at most two. -/
def continuityRel (a b : Chapter × Nat) : Prop := a.2 < b.2 ∧ b.2 ≤ a.2 + 3

end Soc

namespace Soc

/-! ## Lemmas: heads of normalized titles -/

theorem chapterTest_head {u t : String} (h : chapterTest u t = true) :
    t.toList.head? = some '第' := by
  unfold chapterTest at h
  match hm : t.toList with
  | [] => rw [hm] at h; simp at h
  | c :: rest =>
    rw [hm] at h
    by_cases hc : c = '第'
    · simp [hc]
    · simp [hc] at h

theorem stripTrailingPageNo_cons (c : Char) (rest : List Char) :
    stripTrailingPageNo (c :: rest) =
      if pageTailMatch (c :: rest) then [] else c :: stripTrailingPageNo rest := rfl

theorem stripTrailingPageNo_cons_di (rest : List Char) :
    stripTrailingPageNo ('第' :: rest) = '第' :: stripTrailingPageNo rest := by
  have hw : pageTailMatch ('第' :: rest) = false := by
    unfold pageTailMatch
    simp [List.takeWhile_cons, show jsWs '第' = false from by decide]
  rw [stripTrailingPageNo_cons, hw]
  simp

theorem toList_mk (l : List Char) : (String.mk l).toList = l := rfl

theorem normalizeTitle_head {t : String} (h : t.toList.head? = some '第') :
    (normalizeTitle t).toList.head? = some '第' := by
  match hm : t.toList with
  | [] => rw [hm] at h; simp at h
  | c :: rest =>
    rw [hm] at h
    simp only [List.head?] at h
    have hc : c = '第' := Option.some.inj h
    subst hc
    unfold normalizeTitle removeWs lowerStr
    rw [hm, stripTrailingPageNo_cons_di]
    simp only [toList_mk, List.filter_cons]
    simp [show (!jsWs '第') = true from by decide, show asciiLower '第' = '第' from by decide]

/-! ## Lemmas: the chapter-building invariant -/

/-- The invariant of the chapter-building pass, phrased on the identifying
fields of the chapters built so far: normalized titles are pairwise
distinct, a front-matter chapter carries the fixed title, every other
chapter's normalized title was recorded and its raw title starts with 第
and its id has the chapter form, and only the first chapter can be the
front matter. -/
def buildInv (l : List (String × String)) (seen : List String) : Prop :=
  l.Pairwise (fun a b => normalizeTitle a.2 ≠ normalizeTitle b.2) ∧
  (∀ p ∈ l, p.1 = "intro" → p.2 = introTitle) ∧
  (∀ p ∈ l, p.1 ≠ "intro" →
    normalizeTitle p.2 ∈ seen ∧ p.2.toList.head? = some '第' ∧
      ∃ k : Nat, p.1 = "chapter-" ++ toString k) ∧
  (∀ p ∈ l.drop 1, p.1 ≠ "intro")

theorem chapterId_ne_intro (k : Nat) : "chapter-" ++ toString k ≠ "intro" := by
  intro h
  have hl := congrArg String.length h
  rw [String.length_append] at hl
  have h8 : ("chapter-" : String).length = 8 := by decide
  have h5 : ("intro" : String).length = 5 := by decide
  omega

theorem addToIntro_nil (h : String) : addToIntro [] h = [⟨"intro", introTitle, h⟩] := rfl

theorem appendContent_nil (h : String) : appendContent [] h = [⟨"intro", introTitle, h⟩] := rfl

theorem addToIntro_map_idTitle :
    ∀ (cs : List Chapter) (h : String), cs ≠ [] →
      (addToIntro cs h).map idTitle = cs.map idTitle
  | [], _, hne => absurd rfl hne
  | [c], h, _ => by
    unfold addToIntro
    by_cases hc : c.id = "intro" <;> simp [hc, idTitle]
  | c :: c' :: rest, h, _ => by
    show (c :: addToIntro (c' :: rest) h).map idTitle = _
    rw [List.map_cons, List.map_cons, addToIntro_map_idTitle (c' :: rest) h (by simp)]

theorem appendContent_map_idTitle :
    ∀ (cs : List Chapter) (h : String), cs ≠ [] →
      (appendContent cs h).map idTitle = cs.map idTitle
  | [], _, hne => absurd rfl hne
  | [c], h, _ => by
    unfold appendContent
    simp [idTitle]
  | c :: c' :: rest, h, _ => by
    show (c :: appendContent (c' :: rest) h).map idTitle = _
    rw [List.map_cons, List.map_cons, appendContent_map_idTitle (c' :: rest) h (by simp)]

theorem buildInv_singleton_intro (seen : List String) (h : String) :
    buildInv ([(⟨"intro", introTitle, h⟩ : Chapter)].map idTitle) seen := by
  refine ⟨?_, ?_, ?_, ?_⟩
  · simp [idTitle]
  · intro p hp _
    simp [idTitle] at hp
    rw [hp]
  · intro p hp hni
    simp [idTitle] at hp
    rw [hp] at hni
    exact absurd rfl hni
  · intro p hp
    simp [idTitle] at hp

theorem buildInv_addToIntro (cs : List Chapter) (seen : List String) (h : String)
    (hInv : buildInv (cs.map idTitle) seen) :
    buildInv ((addToIntro cs h).map idTitle) seen := by
  cases cs with
  | nil => rw [addToIntro_nil]; exact buildInv_singleton_intro seen h
  | cons c rest => rw [addToIntro_map_idTitle (c :: rest) h (by simp)]; exact hInv

theorem buildInv_appendContent (cs : List Chapter) (seen : List String) (h : String)
    (hInv : buildInv (cs.map idTitle) seen) :
    buildInv ((appendContent cs h).map idTitle) seen := by
  cases cs with
  | nil => rw [appendContent_nil]; exact buildInv_singleton_intro seen h
  | cons c rest => rw [appendContent_map_idTitle (c :: rest) h (by simp)]; exact hInv

theorem normalizeTitle_introTitle_head :
    (normalizeTitle introTitle).toList.head? = some '文' := by decide

theorem buildInv_accept (cs : List Chapter) (seen : List String) (unit text : String)
    (hInv : buildInv (cs.map idTitle) seen)
    (hTest : chapterTest unit text = true)
    (hNew : normalizeTitle text ∉ seen) :
    buildInv
      ((cs ++ [(⟨"chapter-" ++ toString cs.length, text, ""⟩ : Chapter)]).map idTitle)
      (normalizeTitle text :: seen) := by
  obtain ⟨hPw, hIntro, hNon, hDrop⟩ := hInv
  have hHead : (normalizeTitle text).toList.head? = some '第' :=
    normalizeTitle_head (chapterTest_head hTest)
  have hCross : ∀ p ∈ cs.map idTitle, normalizeTitle p.2 ≠ normalizeTitle text := by
    intro p hp
    by_cases hpi : p.1 = "intro"
    · rw [hIntro p hp hpi]
      intro hEq
      have h1 : (normalizeTitle text).toList.head? = some '文' := by
        rw [← hEq]; exact normalizeTitle_introTitle_head
      rw [hHead] at h1
      exact absurd (Option.some.inj h1) (by decide)
    · have hmem := (hNon p hp hpi).1
      intro hEq
      rw [hEq] at hmem
      exact hNew hmem
  rw [List.map_append]
  refine ⟨?_, ?_, ?_, ?_⟩
  · rw [List.pairwise_append]
    refine ⟨hPw, by simp, ?_⟩
    intro a ha b hb
    simp only [List.map_cons, List.map_nil, List.mem_singleton] at hb
    subst hb
    exact hCross a ha
  · intro p hp hpi
    rcases List.mem_append.mp hp with hl | hr
    · exact hIntro p hl hpi
    · simp only [List.map_cons, List.map_nil, List.mem_singleton] at hr
      subst hr
      exact absurd hpi (chapterId_ne_intro cs.length)
  · intro p hp hpi
    rcases List.mem_append.mp hp with hl | hr
    · obtain ⟨h1, h2, h3⟩ := hNon p hl hpi
      exact ⟨List.mem_cons_of_mem _ h1, h2, h3⟩
    · simp only [List.map_cons, List.map_nil, List.mem_singleton] at hr
      subst hr
      refine ⟨List.mem_cons_self _ _, chapterTest_head hTest, cs.length, rfl⟩
  · cases cs with
    | nil =>
      intro p hp
      simp at hp
    | cons c rest =>
      intro p hp
      rw [List.map_cons, List.cons_append, List.drop_one, List.tail_cons] at hp
      rcases List.mem_append.mp hp with hl | hr
      · exact hDrop p (by rw [List.map_cons, List.drop_one, List.tail_cons]; exact hl)
      · simp only [List.map_cons, List.map_nil, List.mem_singleton] at hr
        subst hr
        exact chapterId_ne_intro (c :: rest).length

theorem structStep_inv (tocIdx : List Nat) (unit : String) (s : BuildState)
    (p : Nat × DomNode)
    (hInv : buildInv (s.chapters.map idTitle) s.seen) :
    buildInv ((structStep tocIdx unit s p).chapters.map idTitle)
      (structStep tocIdx unit s p).seen := by
  simp only [structStep]
  split_ifs with hA hB hC hD hE hF hG
  · exact hInv
  · exact buildInv_addToIntro s.chapters s.seen p.2.html hInv
  · exact buildInv_addToIntro s.chapters s.seen p.2.html hInv
  · exact buildInv_addToIntro s.chapters s.seen p.2.html hInv
  · exact hInv
  · have hNew : normalizeTitle (trimStr p.2.text) ∉ s.seen := by
      intro hmem
      exact hF (List.elem_iff.mpr hmem)
    exact buildInv_accept s.chapters s.seen unit (trimStr p.2.text) hInv hE.1 hNew
  · exact buildInv_appendContent s.chapters s.seen _ hInv
  · exact buildInv_appendContent s.chapters s.seen _ hInv

theorem foldl_structStep_inv (tocIdx : List Nat) (unit : String) :
    ∀ (ps : List (Nat × DomNode)) (s : BuildState),
      buildInv (s.chapters.map idTitle) s.seen →
      buildInv ((ps.foldl (structStep tocIdx unit) s).chapters.map idTitle)
        (ps.foldl (structStep tocIdx unit) s).seen
  | [], _, h => h
  | q :: rest, s, h =>
    foldl_structStep_inv tocIdx unit rest _ (structStep_inv tocIdx unit s q h)

theorem buildInv_nil : buildInv (([] : List Chapter).map idTitle) [] := by
  refine ⟨?_, ?_, ?_, ?_⟩ <;> simp

theorem buildChapters_inv (tocIdx : List Nat) (unit : String) (nodes : List DomNode) :
    buildInv ((buildChapters tocIdx unit nodes).chapters.map idTitle)
      (buildChapters tocIdx unit nodes).seen :=
  foldl_structStep_inv tocIdx unit nodes.enum ⟨[], []⟩ buildInv_nil

theorem rawChapters_map_idTitle (tocIdx : List Nat) (unit : String) (nodes : List DomNode)
    (html : String) :
    (rawChapters tocIdx unit nodes html).map idTitle
      = (buildChapters tocIdx unit nodes).chapters.map idTitle := by
  unfold rawChapters
  rcases hc : (buildChapters tocIdx unit nodes).chapters with _ | ⟨c, rest⟩
  · rfl
  · rcases rest with _ | ⟨c', rest'⟩
    · show List.map idTitle
          (if c.id = "intro" ∧ c.content = "" then
            [(⟨c.id, c.title, html⟩ : Chapter)] else [c]) = List.map idTitle [c]
      split_ifs with h
      · simp [idTitle]
      · rfl
    · rfl

theorem rawChapters_inv (tocIdx : List Nat) (unit : String) (nodes : List DomNode)
    (html : String) :
    buildInv ((rawChapters tocIdx unit nodes html).map idTitle)
      (buildChapters tocIdx unit nodes).seen := by
  rw [rawChapters_map_idTitle]
  exact buildChapters_inv tocIdx unit nodes

theorem rawChapters_pairwise_nt (tocIdx : List Nat) (unit : String) (nodes : List DomNode)
    (html : String) : (rawChapters tocIdx unit nodes html).Pairwise ntNe := by
  have h := (rawChapters_inv tocIdx unit nodes html).1
  rw [List.pairwise_map] at h
  exact h

theorem rawChapters_id_form (tocIdx : List Nat) (unit : String) (nodes : List DomNode)
    (html : String) :
    ∀ c ∈ rawChapters tocIdx unit nodes html, c.id ≠ "intro" →
      ∃ k : Nat, c.id = "chapter-" ++ toString k := by
  intro c hc hni
  have h := (rawChapters_inv tocIdx unit nodes html).2.2.1
  exact (h (idTitle c) (List.mem_map_of_mem idTitle hc) hni).2.2

/-! ## Lemmas: sorting, continuity walk and toc selection -/

theorem ntNe_symm : Symmetric ntNe := fun _ _ h => Ne.symm h

theorem withNumbers_fst_sublist :
    ∀ l : List Chapter, List.Sublist ((withNumbers l).map Prod.fst) l
  | [] => by simp [withNumbers]
  | c :: rest => by
    show List.Sublist ((List.filterMap _ (c :: rest)).map Prod.fst) _
    rw [List.filterMap_cons]
    cases hg : getChapterNumber c.title with
    | none =>
      simp only [hg, Option.map_none']
      exact (withNumbers_fst_sublist rest).cons c
    | some n =>
      simp only [hg, Option.map_some']
      rw [List.map_cons]
      exact (withNumbers_fst_sublist rest).cons₂ c

theorem withNumbers_num_eq {l : List Chapter} {p : Chapter × Nat}
    (h : p ∈ withNumbers l) : getChapterNumber p.1.title = some p.2 := by
  unfold withNumbers at h
  rcases List.mem_filterMap.mp h with ⟨c, _, hf⟩
  cases hg : getChapterNumber c.title with
  | none => rw [hg] at hf; simp at hf
  | some n =>
    rw [hg] at hf
    simp only [Option.map_some', Option.some.injEq] at hf
    rw [← hf]
    exact hg

theorem insertByNum_perm (x : Chapter × Nat) :
    ∀ l : List (Chapter × Nat), (insertByNum x l).Perm (x :: l)
  | [] => List.Perm.refl _
  | y :: ys => by
    unfold insertByNum
    split_ifs with h
    · exact ((insertByNum_perm x ys).cons y).trans (List.Perm.swap x y ys)
    · exact List.Perm.refl _

theorem sortByNum_perm : ∀ l : List (Chapter × Nat), (sortByNum l).Perm l
  | [] => List.Perm.refl _
  | x :: xs =>
    (insertByNum_perm x (sortByNum xs)).trans ((sortByNum_perm xs).cons x)

theorem continuityGo_eq_append :
    ∀ (l acc : List (Chapter × Nat)) (e : Nat),
      ∃ t, continuityGo l acc e = acc ++ t ∧ List.Sublist t l
  | [], acc, e => ⟨[], by simp [continuityGo], List.Sublist.refl _⟩
  | p :: rest, acc, e => by
    unfold continuityGo
    split_ifs with h1 h2
    · obtain ⟨t, ht, hs⟩ := continuityGo_eq_append rest acc e
      exact ⟨t, ht, hs.cons p⟩
    · obtain ⟨t, ht, hs⟩ := continuityGo_eq_append rest (acc ++ [p]) (p.2 + 1)
      exact ⟨p :: t, by rw [ht, List.append_assoc]; rfl, hs.cons₂ p⟩
    · obtain ⟨t, ht, hs⟩ := continuityGo_eq_append rest acc e
      exact ⟨t, ht, hs.cons p⟩

theorem continuityWalk_sublist (l : List (Chapter × Nat)) :
    List.Sublist (continuityWalk l) l := by
  obtain ⟨t, ht, hs⟩ := continuityGo_eq_append l [] 1
  unfold continuityWalk
  rw [ht]
  simpa using hs

theorem continuityGo_chain :
    ∀ (l acc : List (Chapter × Nat)) (e : Nat),
      acc.Chain' continuityRel → (∀ x ∈ acc.getLast?, x.2 + 1 = e) →
      (continuityGo l acc e).Chain' continuityRel
  | [], acc, e, hc, _ => by simpa [continuityGo] using hc
  | p :: rest, acc, e, hc, hl => by
    unfold continuityGo
    split_ifs with h1 h2
    · exact continuityGo_chain rest acc e hc hl
    · refine continuityGo_chain rest (acc ++ [p]) (p.2 + 1) ?_ ?_
      · rw [List.chain'_append]
        refine ⟨hc, List.chain'_singleton p, ?_⟩
        intro x hx y hy
        simp only [List.head?_cons, Option.mem_def, Option.some.injEq] at hy
        subst hy
        have hxe := hl x hx
        exact ⟨by omega, by omega⟩
      · intro x hx
        rw [List.getLast?_concat] at hx
        have hpx : p = x := by simpa using hx
        rw [← hpx]
    · exact continuityGo_chain rest acc e hc hl

theorem continuityWalk_chain (l : List (Chapter × Nat)) :
    (continuityWalk l).Chain' continuityRel :=
  continuityGo_chain l [] 1 List.chain'_nil (by simp)

theorem tocSelectStep_inv (source acc : List Chapter) (t : String)
    (h1 : ∀ c ∈ acc, c ∈ source) (h2 : acc.Pairwise (· ≠ ·)) :
    (∀ c ∈ tocSelectStep source acc t, c ∈ source) ∧
      (tocSelectStep source acc t).Pairwise (· ≠ ·) := by
  unfold tocSelectStep
  cases hf : source.find? (tocEntryMatches (normalizeTitleForMatch t)) with
  | none => exact ⟨h1, h2⟩
  | some m =>
    dsimp only
    split_ifs with hc
    · exact ⟨h1, h2⟩
    · constructor
      · intro c hcm
        rcases List.mem_append.mp hcm with hl | hr
        · exact h1 c hl
        · rw [List.mem_singleton.mp hr]
          exact List.mem_of_find?_eq_some hf
      · rw [List.pairwise_append]
        refine ⟨h2, by simp, ?_⟩
        intro a ha b hb
        rw [List.mem_singleton.mp hb]
        intro hab
        apply hc
        rw [← hab]
        exact List.elem_iff.mpr ha

theorem tocSelect_foldl_inv (source : List Chapter) :
    ∀ (ts : List String) (acc : List Chapter),
      (∀ c ∈ acc, c ∈ source) → acc.Pairwise (· ≠ ·) →
      (∀ c ∈ ts.foldl (tocSelectStep source) acc, c ∈ source) ∧
        (ts.foldl (tocSelectStep source) acc).Pairwise (· ≠ ·)
  | [], acc, h1, h2 => ⟨h1, h2⟩
  | t :: rest, acc, h1, h2 => by
    obtain ⟨h1', h2'⟩ := tocSelectStep_inv source acc t h1 h2
    exact tocSelect_foldl_inv source rest (tocSelectStep source acc t) h1' h2'

theorem tocSelect_inv (ts : List String) (source : List Chapter)
    (hpw : source.Pairwise ntNe) :
    (∀ c ∈ tocSelect ts source, c ∈ source) ∧ (tocSelect ts source).Pairwise ntNe := by
  unfold tocSelect
  dsimp only
  split_ifs with h
  · exact ⟨fun c hc => hc, hpw⟩
  · obtain ⟨hsub, hne⟩ := tocSelect_foldl_inv source ts [] (by simp) (by simp)
    refine ⟨hsub, hne.imp_of_mem ?_⟩
    intro a b ha hb hab
    exact hpw.forall ntNe_symm (hsub a ha) (hsub b hb) hab

theorem tocSelect_mem (ts : List String) (source : List Chapter) :
    ∀ c ∈ tocSelect ts source, c ∈ source := by
  unfold tocSelect
  dsimp only
  split_ifs with h
  · exact fun c hc => hc
  · exact (tocSelect_foldl_inv source ts [] (by simp) (by simp)).1

theorem addToIntro_filter :
    ∀ (cs : List Chapter) (h : String),
      (addToIntro cs h).filter (fun c => c.id ≠ "intro")
        = cs.filter (fun c => c.id ≠ "intro")
  | [], h => by simp [addToIntro_nil]
  | [c], h => by
    unfold addToIntro
    split_ifs with hc
    · simp [hc]
    · rfl
  | c :: c' :: rest, h => by
    show ((c :: addToIntro (c' :: rest) h).filter _) = _
    rw [List.filter_cons, List.filter_cons, addToIntro_filter (c' :: rest) h]

end Soc

namespace Soc

/-! ## Claim theorems: the Document Structurer -/

/-- C1 (amended).  For every input, the chapter list returned by the
Structurer has pairwise distinct normalized titles (including the front
matter), and the continuity-validated chapter sequence carries extracted
numbers that are strictly increasing with at most two numbers skipped
between consecutive chapters (so each accepted number exceeds its
predecessor by at most three), each number being the one extracted from
that chapter's title.  The claim's further assertion that the returned
list itself is numerically monotone fails, because the toc cross-check may
reorder the returned chapters into toc order. -/
theorem c1_structure_dedup_and_continuity (name : String) (nodes : List DomNode)
    (html : String) (pc : Int) :
    (extractPerfectStructure name nodes html pc).chapters.Pairwise ntNe ∧
    (continuityPairsOf nodes html pc).Chain' continuityRel ∧
    ∀ p ∈ continuityPairsOf nodes html pc, getChapterNumber p.1.title = some p.2 := by
  refine ⟨?_, ?_, ?_⟩
  · dsimp only [extractPerfectStructure]
    have hpwM := rawChapters_pairwise_nt (tocScan nodes).1 (detectChapterType nodes pc)
      nodes html
    set M := rawChapters (tocScan nodes).1 (detectChapterType nodes pc) nodes html with hMdef
    set filtered := contentFilter M with hfdef
    have hfs : List.Sublist filtered M := List.filter_sublist _
    set numbered := filtered.filter (fun c => c.id ≠ "intro") with hndef
    have hns : List.Sublist numbered filtered := List.filter_sublist _
    have hpwN : numbered.Pairwise ntNe := hpwM.sublist (hns.trans hfs)
    set wn := withNumbers numbered with hwdef
    have hwn : List.Sublist (wn.map Prod.fst) numbered := withNumbers_fst_sublist numbered
    have hpwWn : wn.Pairwise (fun a b => ntNe a.1 b.1) :=
      List.pairwise_map.mp (hpwN.sublist hwn)
    set pairs := sortByNum wn with hpdef
    have hperm : pairs.Perm wn := sortByNum_perm wn
    have hpwPairs : pairs.Pairwise (fun a b => ntNe a.1 b.1) :=
      (hperm.pairwise_iff (fun h => ntNe_symm h)).mpr hpwWn
    have hpairsMem : ∀ p ∈ pairs, p.1 ∈ numbered := fun p hp =>
      hwn.subset (List.mem_map_of_mem _ (hperm.subset hp))
    set continuous := continuityWalk pairs with hcdef
    have hcs : List.Sublist continuous pairs := continuityWalk_sublist pairs
    set source := if continuous.length > 0 then continuous.map Prod.fst
      else pairs.map Prod.fst with hsrc
    have hpwSrc : source.Pairwise ntNe := by
      rw [hsrc]
      split_ifs
      · exact List.pairwise_map.mpr (hpwPairs.sublist hcs)
      · exact List.pairwise_map.mpr hpwPairs
    have hSrcMem : ∀ c ∈ source, c ∈ numbered := by
      rw [hsrc]
      split_ifs
      · intro c hcm
        rcases List.mem_map.mp hcm with ⟨p, hp, rfl⟩
        exact hpairsMem p (hcs.subset hp)
      · intro c hcm
        rcases List.mem_map.mp hcm with ⟨p, hp, rfl⟩
        exact hpairsMem p hp
    set finals := if (tocScan nodes).2.length ≥ 3 then tocSelect (tocScan nodes).2 source
      else source with hfin
    have hFin : (∀ c ∈ finals, c ∈ numbered) ∧ finals.Pairwise ntNe := by
      rw [hfin]
      split_ifs
      · obtain ⟨hs, hp⟩ := tocSelect_inv (tocScan nodes).2 source hpwSrc
        exact ⟨fun c hc => hSrcMem c (hs c hc), hp⟩
      · exact ⟨hSrcMem, hpwSrc⟩
    cases hio : filtered.find? (fun c => c.id = "intro") with
    | none => simpa using hFin.2
    | some i =>
      have hiM : i ∈ M := hfs.subset (List.mem_of_find?_eq_some hio)
      have hiId : i.id = "intro" := by simpa using List.find?_some hio
      show List.Pairwise ntNe ([i] ++ finals)
      refine List.pairwise_cons.mpr ⟨?_, hFin.2⟩
      intro b hb
      have hbN : b ∈ numbered := hFin.1 b hb
      have hbM : b ∈ M := hfs.subset (List.mem_of_mem_filter hbN)
      have hbId : b.id ≠ "intro" := by simpa using List.of_mem_filter hbN
      have hne : i ≠ b := fun h => hbId (h ▸ hiId)
      exact hpwM.forall ntNe_symm hiM hbM hne
  · exact continuityWalk_chain _
  · intro p hp
    dsimp only [continuityPairsOf] at hp
    have h1 := (continuityWalk_sublist _).subset hp
    have h2 := (sortByNum_perm _).subset h1
    exact withNumbers_num_eq h2

set_option maxRecDepth 100000 in
/-- C1 counterexample.  A document whose toc lists the chapters in the
order two, three, one while the body carries a well-formed run one, two,
three: the structurer's toc cross-check reorders the returned chapters to
toc order, so the extracted numbers of the returned list are 2, 3, 1 and
are not monotonically increasing. -/
theorem c1_counterexample :
    ((extractPerfectStructure "doc" tocReorderNodes "RAW" 0).chapters.filterMap
        (fun c => getChapterNumber c.title)) = [2, 3, 1] ∧
    ¬ List.Chain' (fun a b => a < b ∧ b ≤ a + 3)
        ((extractPerfectStructure "doc" tocReorderNodes "RAW" 0).chapters.filterMap
          (fun c => getChapterNumber c.title)) := by
  have he : ((extractPerfectStructure "doc" tocReorderNodes "RAW" 0).chapters.filterMap
      (fun c => getChapterNumber c.title)) = [2, 3, 1] := by rfl
  refine ⟨he, ?_⟩
  rw [he]
  intro h
  have h2 := (List.chain'_cons.mp (List.chain'_cons.mp h).2).1
  omega

/-- C1 witness: the amended theorem evaluated at the toc-reorder document. -/
theorem c1_witness :
    (extractPerfectStructure "doc" tocReorderNodes "RAW" 0).chapters.Pairwise ntNe ∧
    (continuityPairsOf tocReorderNodes "RAW" 0).Chain' continuityRel ∧
    ∀ p ∈ continuityPairsOf tocReorderNodes "RAW" 0,
      getChapterNumber p.1.title = some p.2 :=
  c1_structure_dedup_and_continuity "doc" tocReorderNodes "RAW" 0

/-- C2 (amended).  A node lying in a detected toc run is never accepted as
a chapter heading: processing it leaves the accepted-title set and every
non-front-matter chapter unchanged; its markup is folded into the
synthetic front-matter chapter exactly when the current chapter is the
front matter (it creates the front matter when no chapter exists yet), and
is discarded otherwise. -/
theorem c2_toc_run_nodes_never_chapters (tocIdx : List Nat) (unit : String)
    (s : BuildState) (i : Nat) (node : DomNode)
    (hIdx : i ∈ tocIdx)
    (hText : ¬(trimStr node.text = "" ∧ node.tag ≠ "TABLE")) :
    (structStep tocIdx unit s (i, node)).seen = s.seen ∧
    (structStep tocIdx unit s (i, node)).chapters.filter (fun c => c.id ≠ "intro")
      = s.chapters.filter (fun c => c.id ≠ "intro") ∧
    (s.chapters = [] →
      (structStep tocIdx unit s (i, node)).chapters = [⟨"intro", introTitle, node.html⟩]) ∧
    (∀ c, s.chapters = [c] → c.id = "intro" →
      (structStep tocIdx unit s (i, node)).chapters
        = [⟨c.id, c.title, c.content ++ node.html⟩]) := by
  have hContains : tocIdx.contains i = true := List.elem_iff.mpr hIdx
  have hstep : structStep tocIdx unit s (i, node)
      = { s with chapters := addToIntro s.chapters node.html } := by
    simp only [structStep]
    rw [if_neg hText, if_pos hContains]
  refine ⟨by rw [hstep], by rw [hstep]; exact addToIntro_filter s.chapters node.html,
    ?_, ?_⟩
  · intro h0
    rw [hstep, h0, addToIntro_nil]
  · intro c hc hcid
    rw [hstep, hc]
    show addToIntro [c] node.html = _
    unfold addToIntro
    rw [if_pos hcid]

set_option maxRecDepth 100000 in
/-- C2 counterexample.  In a document whose toc run (three headings ended
by a repeated chapter number) follows a real chapter heading, the run
nodes are discarded: the output contains no front-matter chapter at all,
so the run nodes are not placed into a synthetic front-matter chapter. -/
theorem c2_counterexample :
    (tocScan tocAfterHeadingNodes).1 = [2, 3, 4] ∧
    ¬ (∀ i ∈ (tocScan tocAfterHeadingNodes).1,
        ∃ c ∈ (extractPerfectStructure "doc" tocAfterHeadingNodes "RAW" 0).chapters,
          c.id = "intro" ∧
            strIncludes c.content ((tocAfterHeadingNodes.getD i blankNode).html) = true) := by
  have hidx : (tocScan tocAfterHeadingNodes).1 = [2, 3, 4] := by rfl
  have hnointro : (extractPerfectStructure "doc" tocAfterHeadingNodes "RAW" 0).chapters.filter
      (fun c => c.id = "intro") = [] := by rfl
  refine ⟨hidx, ?_⟩
  intro h
  obtain ⟨c, hc, hcid, _⟩ := h 2 (by rw [hidx]; simp)
  have hmem : c ∈ (extractPerfectStructure "doc" tocAfterHeadingNodes "RAW" 0).chapters.filter
      (fun c => c.id = "intro") := List.mem_filter.mpr ⟨hc, by simpa using hcid⟩
  rw [hnointro] at hmem
  simp at hmem

/-- C2 witness: the amended theorem evaluated on a toc-run node arriving
while the front matter is the current chapter. -/
theorem c2_witness :
    (structStep [0] "章" ⟨[⟨"intro", introTitle, "X"⟩], []⟩ (0, para "第一章 目录项")).seen
        = [] ∧
    (structStep [0] "章" ⟨[⟨"intro", introTitle, "X"⟩], []⟩
        (0, para "第一章 目录项")).chapters.filter (fun c => c.id ≠ "intro")
      = [(⟨"intro", introTitle, "X"⟩ : Chapter)].filter (fun c => c.id ≠ "intro") ∧
    ([(⟨"intro", introTitle, "X"⟩ : Chapter)] = [] →
      (structStep [0] "章" ⟨[⟨"intro", introTitle, "X"⟩], []⟩
          (0, para "第一章 目录项")).chapters
        = [⟨"intro", introTitle, (para "第一章 目录项").html⟩]) ∧
    (∀ c, [(⟨"intro", introTitle, "X"⟩ : Chapter)] = [c] → c.id = "intro" →
      (structStep [0] "章" ⟨[⟨"intro", introTitle, "X"⟩], []⟩
          (0, para "第一章 目录项")).chapters
        = [⟨c.id, c.title, c.content ++ (para "第一章 目录项").html⟩]) :=
  c2_toc_run_nodes_never_chapters [0] "章" ⟨[⟨"intro", introTitle, "X"⟩], []⟩ 0
    (para "第一章 目录项") (by decide) (by decide)

/-- C10 (confirmed).  In every structurer output at most one chapter
carries the synthetic front-matter id, when present it is the first
chapter, and every other chapter's id has the chapter-k form. -/
theorem c10_front_matter_unique (name : String) (nodes : List DomNode)
    (html : String) (pc : Int) :
    ((extractPerfectStructure name nodes html pc).chapters.filter
        (fun c => c.id = "intro")).length ≤ 1 ∧
    (∀ c ∈ (extractPerfectStructure name nodes html pc).chapters, c.id = "intro" →
      (extractPerfectStructure name nodes html pc).chapters.head? = some c) ∧
    (∀ c ∈ (extractPerfectStructure name nodes html pc).chapters, c.id ≠ "intro" →
      ∃ k : Nat, c.id = "chapter-" ++ toString k) := by
  dsimp only [extractPerfectStructure]
  have hIdForm := rawChapters_id_form (tocScan nodes).1 (detectChapterType nodes pc)
    nodes html
  set M := rawChapters (tocScan nodes).1 (detectChapterType nodes pc) nodes html with hMdef
  set filtered := contentFilter M with hfdef
  have hfs : List.Sublist filtered M := List.filter_sublist _
  set numbered := filtered.filter (fun c => c.id ≠ "intro") with hndef
  set pairs := sortByNum (withNumbers numbered) with hpdef
  set continuous := continuityWalk pairs with hcdef
  set source := if continuous.length > 0 then continuous.map Prod.fst
    else pairs.map Prod.fst with hsrc
  have hSrcMem : ∀ c ∈ source, c ∈ numbered := by
    rw [hsrc]
    split_ifs
    · intro c hcm
      rcases List.mem_map.mp hcm with ⟨p, hp, rfl⟩
      exact (withNumbers_fst_sublist numbered).subset
        (List.mem_map_of_mem _ ((sortByNum_perm _).subset ((continuityWalk_sublist _).subset hp)))
    · intro c hcm
      rcases List.mem_map.mp hcm with ⟨p, hp, rfl⟩
      exact (withNumbers_fst_sublist numbered).subset
        (List.mem_map_of_mem _ ((sortByNum_perm _).subset hp))
  set finals := if (tocScan nodes).2.length ≥ 3 then tocSelect (tocScan nodes).2 source
    else source with hfin
  have hFinMem : ∀ c ∈ finals, c ∈ numbered := by
    rw [hfin]
    split_ifs
    · exact fun c hc => hSrcMem c (tocSelect_mem (tocScan nodes).2 source c hc)
    · exact hSrcMem
  have hFinId : ∀ c ∈ finals, c.id ≠ "intro" := by
    intro c hc
    simpa using List.of_mem_filter (hFinMem c hc)
  have hFinForm : ∀ c ∈ finals, ∃ k : Nat, c.id = "chapter-" ++ toString k := by
    intro c hc
    exact hIdForm c (hfs.subset (List.mem_of_mem_filter (hFinMem c hc))) (hFinId c hc)
  cases hio : filtered.find? (fun c => c.id = "intro") with
  | none =>
    refine ⟨?_, ?_, ?_⟩
    · show ((([] : List Chapter) ++ finals).filter (fun c => c.id = "intro")).length ≤ 1
      rw [List.nil_append]
      have : finals.filter (fun c => c.id = "intro") = [] := by
        rw [List.filter_eq_nil_iff]
        intro c hc
        simpa using hFinId c hc
      rw [this]
      simp
    · intro c hc hcid
      rw [List.nil_append] at hc
      exact absurd hcid (hFinId c hc)
    · intro c hc _
      rw [List.nil_append] at hc
      exact hFinForm c hc
  | some i =>
    have hiId : i.id = "intro" := by simpa using List.find?_some hio
    refine ⟨?_, ?_, ?_⟩
    · show ((([i] : List Chapter) ++ finals).filter (fun c => c.id = "intro")).length ≤ 1
      rw [List.singleton_append, List.filter_cons]
      have hfe : finals.filter (fun c => c.id = "intro") = [] := by
        rw [List.filter_eq_nil_iff]
        intro c hc
        simpa using hFinId c hc
      split_ifs with h
      · rw [hfe]
        simp
      · rw [hfe]
        simp
    · intro c hc hcid
      rw [List.singleton_append] at hc ⊢
      rcases List.mem_cons.mp hc with rfl | hcf
      · rfl
      · exact absurd hcid (hFinId c hcf)
    · intro c hc hcid
      rw [List.singleton_append] at hc
      rcases List.mem_cons.mp hc with rfl | hcf
      · exact absurd hiId hcid
      · exact hFinForm c hcf

/-- C10 witness: the theorem evaluated at the toc-reorder document. -/
theorem c10_witness :
    ((extractPerfectStructure "doc" tocReorderNodes "RAW" 0).chapters.filter
        (fun c => c.id = "intro")).length ≤ 1 ∧
    (∀ c ∈ (extractPerfectStructure "doc" tocReorderNodes "RAW" 0).chapters,
      c.id = "intro" →
        (extractPerfectStructure "doc" tocReorderNodes "RAW" 0).chapters.head? = some c) ∧
    (∀ c ∈ (extractPerfectStructure "doc" tocReorderNodes "RAW" 0).chapters,
      c.id ≠ "intro" → ∃ k : Nat, c.id = "chapter-" ++ toString k) :=
  c10_front_matter_unique "doc" tocReorderNodes "RAW" 0

/-! ## Claim theorems: table extraction -/

/-- C3 counterexample.  With the budget label patterns and the 万元 unit
hint, the two-row single-column table whose header cell is 预算 and whose
data cell is 91万元 yields no value at all: the column strategy requires a
purely numeric data cell, which 91万元 is not, and the row strategy never
fires on a single-column table. -/
theorem c3_counterexample :
    ¬ (extractFromTable budgetLabelPats (some "万元")
        "<table><tr><td>预算</td></tr><tr><td>91万元</td></tr></table>"
      = some "91万元") := by
  have he : extractFromTable budgetLabelPats (some "万元")
      "<table><tr><td>预算</td></tr><tr><td>91万元</td></tr></table>" = none := by rfl
  intro h
  rw [he] at h
  exact Option.noConfusion h

/-- C3 (amended).  With the budget label patterns and the 万元 unit hint, a
two-row single-column table whose header cell is 预算 (or 预算（万元）)
and whose data cell is the bare number 91 yields the string 91万元: the
unit is supplied from the unit hint or the header context because the
purely numeric cell does not carry it. -/
theorem c3_table_unit_from_header :
    extractFromTable budgetLabelPats (some "万元")
        "<table><tr><td>预算</td></tr><tr><td>91</td></tr></table>" = some "91万元" ∧
    extractFromTable budgetLabelPats (some "万元")
        "<table><tr><td>预算（万元）</td></tr><tr><td>91</td></tr></table>"
      = some "91万元" := ⟨rfl, rfl⟩

/-! ## Claim theorems: conflict fields -/

theorem cleanValue_ne_empty {v : Option String} {t : String}
    (h : cleanValue v = some t) : t ≠ "" := by
  cases v with
  | none => simp [cleanValue] at h
  | some s =>
    by_cases h1 : s = ""
    · simp [cleanValue, h1] at h
    · by_cases h2 : trimStr s = "" ∨ lowerStr (trimStr s) = "null" ∨
          trimStr s = "无" ∨ trimStr s = "暂无"
      · simp [cleanValue, h1, h2] at h
      · have ht : t = trimStr s := by
          simp [cleanValue, h1, h2] at h
          exact h.symm
        rw [ht]
        intro h0
        exact h2 (Or.inl h0)

/-- C4 counterexample.  The value 无 is non-empty and differs from B after
whitespace-stripping and lowercasing, yet the adjudicated field is not the
deterministic value with a conflict: 无 is a null-equivalent, so it is
normalized to absent and the oracle value B wins without conflict and with
a single candidate. -/
theorem c4_counterexample :
    ("无" ≠ "" ∧ "B" ≠ "" ∧ normalizeCmp "无" ≠ normalizeCmp "B") ∧
    createConflictField (some "无") (some "B") regexSourceLabel aiSourceLabel
      = ⟨"B", false, [⟨"B", aiSourceLabel⟩]⟩ := by
  exact ⟨⟨by decide, by decide, by decide⟩, rfl⟩

/-- C4 (amended).  Whenever both values remain present after cleaning
(trim; blank, null-equivalents, 无 and 暂无 map to absent) and their
cleaned forms differ after whitespace-stripping and lowercasing, the field
is the cleaned deterministic value, the conflict flag is set, and the
candidates are exactly the cleaned deterministic value with its source
followed by the cleaned oracle value with its source. -/
theorem c4_conflict_field (rv av : Option String) (rs as : String) (r a : String)
    (hr : cleanValue rv = some r) (ha : cleanValue av = some a)
    (hne : normalizeCmp r ≠ normalizeCmp a) :
    createConflictField rv av rs as = ⟨r, true, [⟨r, rs⟩, ⟨a, as⟩]⟩ := by
  have hra : some a ≠ some r := by
    intro h
    exact hne (by rw [Option.some.inj h])
  unfold createConflictField
  rw [hr, ha]
  simp [hra, hne]

/-- C4 witness: the amended theorem at the values A and B. -/
theorem c4_witness :
    createConflictField (some "A") (some "B") regexSourceLabel aiSourceLabel
      = ⟨"A", true, [⟨"A", regexSourceLabel⟩, ⟨"B", aiSourceLabel⟩]⟩ :=
  c4_conflict_field (some "A") (some "B") regexSourceLabel aiSourceLabel "A" "B"
    (by decide) (by decide) (by decide)

/-- C5 (confirmed).  Whenever both values are absent after cleaning (null,
blank, a null word, 无 or 暂无), the field is the unrecognized sentinel,
the conflict flag is clear, and the candidate list is empty. -/
theorem c5_both_absent (rv av : Option String) (rs as : String)
    (hr : cleanValue rv = none) (ha : cleanValue av = none) :
    createConflictField rv av rs as = ⟨unrecognized, false, []⟩ := by
  unfold createConflictField
  rw [hr, ha]
  rfl

/-- C5 witness: both inputs null. -/
theorem c5_witness :
    createConflictField none none regexSourceLabel aiSourceLabel
      = ⟨unrecognized, false, []⟩ :=
  c5_both_absent none none regexSourceLabel aiSourceLabel rfl rfl

/-- C9 (confirmed).  Every adjudicated field has a non-empty value (a
cleaned candidate value or the sentinel), at most two candidates, and
pairwise distinct candidate values. -/
theorem c9_conflict_field_invariants (rv av : Option String) (rs as : String) :
    (createConflictField rv av rs as).value ≠ "" ∧
    ((createConflictField rv av rs as).value = unrecognized ∨
      (createConflictField rv av rs as).value
        ∈ (createConflictField rv av rs as).candidates.map (fun c => c.value)) ∧
    (createConflictField rv av rs as).candidates.length ≤ 2 ∧
    (createConflictField rv av rs as).candidates.Pairwise
      (fun a b => a.value ≠ b.value) := by
  unfold createConflictField
  cases hr : cleanValue rv with
  | none =>
    cases ha : cleanValue av with
    | none => exact ⟨by simp, Or.inl rfl, by simp, by simp⟩
    | some a =>
      refine ⟨cleanValue_ne_empty ha, Or.inr (by simp), by simp, by simp⟩
  | some r =>
    cases ha : cleanValue av with
    | none => exact ⟨cleanValue_ne_empty hr, Or.inr (by simp), by simp, by simp⟩
    | some a =>
      by_cases hra : some a ≠ some r
      · refine ⟨cleanValue_ne_empty hr, Or.inr (by simp [hra]), by simp [hra], ?_⟩
        simp only [if_pos hra]
        refine List.pairwise_cons.mpr ⟨?_, by simp⟩
        intro b hb
        rcases List.mem_cons.mp hb with rfl | hb'
        · simp only []
          intro hval
          exact hra (by rw [hval])
        · simp at hb'
      · refine ⟨cleanValue_ne_empty hr, Or.inr (by simp [hra]), by simp [hra], ?_⟩
        simp [hra]

/-- C9 witness: the invariants at a concrete pair. -/
theorem c9_witness :
    (createConflictField (some "A") (some "B") regexSourceLabel aiSourceLabel).value ≠ "" ∧
    ((createConflictField (some "A") (some "B") regexSourceLabel aiSourceLabel).value
        = unrecognized ∨
      (createConflictField (some "A") (some "B") regexSourceLabel aiSourceLabel).value
        ∈ (createConflictField (some "A") (some "B") regexSourceLabel
            aiSourceLabel).candidates.map (fun c => c.value)) ∧
    (createConflictField (some "A") (some "B") regexSourceLabel
        aiSourceLabel).candidates.length ≤ 2 ∧
    (createConflictField (some "A") (some "B") regexSourceLabel
        aiSourceLabel).candidates.Pairwise (fun a b => a.value ≠ b.value) :=
  c9_conflict_field_invariants (some "A") (some "B") regexSourceLabel aiSourceLabel

/-! ## Claim theorems: synthesis and the pipeline -/

/-- C6 (confirmed).  When the oracle result is absent or its filtered risk
list is empty, the synthesized risk list is exactly the fallback mapping of
the first twenty raw candidates in order: its length is the minimum of
twenty and the candidate count, and every item is medium severity,
category other, and annotated with its candidate's matched keyword and the
manual-review notice. -/
theorem c6_fallback_risks (doc : ParsedDocument) (regexInfo : RegexInfo)
    (aiResult : Option AIAnalysisResult) (cands : List RawRiskCandidate)
    (slices : HtmlSlices)
    (h : aiResult = none ∨ ∃ a, aiResult = some a ∧ a.filteredRisks = []) :
    (synthesizeResults doc regexInfo aiResult cands slices).invalidationRisks
        = (cands.take 20).map fallbackRisk ∧
    (synthesizeResults doc regexInfo aiResult cands slices).invalidationRisks.length
        = min 20 cands.length ∧
    ∀ r ∈ (synthesizeResults doc regexInfo aiResult cands slices).invalidationRisks,
      r.severity = Severity.medium ∧ r.category = RiskCategory.other ∧
        ∃ c ∈ cands,
          r.aiAnalysis = "[AI分析失败] 匹配关键词: " ++ c.matchedKeyword ++ "，请人工审核" := by
  have hrisks : (synthesizeResults doc regexInfo aiResult cands slices).invalidationRisks
      = (cands.take 20).map fallbackRisk := by
    rcases h with rfl | ⟨a, rfl, hfr⟩
    · rfl
    · simp [synthesizeResults, hfr]
  refine ⟨hrisks, ?_, ?_⟩
  · rw [hrisks, List.length_map, List.length_take]
  · intro r hr
    rw [hrisks] at hr
    rcases List.mem_map.mp hr with ⟨c, hcm, rfl⟩
    exact ⟨rfl, rfl, c, List.mem_of_mem_take hcm, rfl⟩

/-- C6 witness: the fallback at one concrete candidate with an absent
oracle result. -/
theorem c6_witness :
    (synthesizeResults emptyDoc {} none [sampleCand] emptySlices).invalidationRisks
        = ([sampleCand].take 20).map fallbackRisk ∧
    (synthesizeResults emptyDoc {} none [sampleCand] emptySlices).invalidationRisks.length
        = min 20 [sampleCand].length ∧
    ∀ r ∈ (synthesizeResults emptyDoc {} none [sampleCand] emptySlices).invalidationRisks,
      r.severity = Severity.medium ∧ r.category = RiskCategory.other ∧
        ∃ c ∈ [sampleCand],
          r.aiAnalysis = "[AI分析失败] 匹配关键词: " ++ c.matchedKeyword ++ "，请人工审核" :=
  c6_fallback_risks emptyDoc {} none [sampleCand] emptySlices (Or.inl rfl)

/-- C7 (confirmed).  When the cancellation signal is still clear at the
check before the oracle call but has fired by the check immediately after
it resolves, the pipeline rejects with the abort outcome and the synthesis
stage is never entered, regardless of the oracle's response. -/
theorem c7_abort_during_oracle (doc : ParsedDocument) (sig : AbortChecks)
    (oracle : Option AIAnalysisResult) (h3 : sig.c3 = false) (h4 : sig.c4 = true) :
    (analyzeBidDocument doc sig oracle).1 = Except.error abortError ∧
    Stage.E ∉ (analyzeBidDocument doc sig oracle).2 := by
  simp only [analyzeBidDocument, h3, h4]
  split_ifs <;> exact ⟨rfl, by decide⟩

/-- C7 witness: the pipeline with the signal firing during the oracle
call. -/
theorem c7_witness :
    (analyzeBidDocument emptyDoc ⟨false, false, false, false, true, false⟩ none).1
        = Except.error abortError ∧
    Stage.E ∉ (analyzeBidDocument emptyDoc ⟨false, false, false, false, true, false⟩ none).2 :=
  c7_abort_during_oracle emptyDoc ⟨false, false, false, false, true, false⟩ none rfl rfl

/-- C8 (confirmed).  The synthesizer is a deterministic pure function of
its five inputs: two invocations with equal inputs return equal
information models (hence byte-for-byte equal serializations). -/
theorem c8_synthesize_deterministic (d1 d2 : ParsedDocument) (r1 r2 : RegexInfo)
    (a1 a2 : Option AIAnalysisResult) (k1 k2 : List RawRiskCandidate)
    (s1 s2 : HtmlSlices)
    (hd : d1 = d2) (hr : r1 = r2) (ha : a1 = a2) (hk : k1 = k2) (hs : s1 = s2) :
    synthesizeResults d1 r1 a1 k1 s1 = synthesizeResults d2 r2 a2 k2 s2 := by
  subst hd hr ha hk hs
  rfl

/-- C8 witness: two equal concrete invocations. -/
theorem c8_witness :
    synthesizeResults emptyDoc {} none [sampleCand] emptySlices
      = synthesizeResults emptyDoc {} none [sampleCand] emptySlices :=
  c8_synthesize_deterministic emptyDoc emptyDoc {} {} none none
    [sampleCand] [sampleCand] emptySlices emptySlices rfl rfl rfl rfl rfl

end Soc
